import Mathlib

/-!
Shallow embedding of the scalar autodiff engine of the easy-nn repository
(`src/utils/neural-network.ts`, together with the extended revision of the
same file that adds `sub`, `div`, `pow`, `log`, `exp`, `sin`, `cos`, an
`activation` tag on `Neuron`, and an `activations` parameter on `MLP`; the
shorter revision is the special case `activations = []` of the extended one).

The mutable heap of `Value` objects is modelled as a `Graph`: a list of
nodes addressed by index, where the index plays the role of JavaScript
object identity.  Every constructor of the `Value` class appends one node;
`grad` mutation during the backward pass becomes functional update of the
node list.  `Math.exp`, `Math.log`, `Math.sin`, `Math.cos` and `Math.pow`
are abstracted as a record of primitive functions `Prims`, so the whole
development is executable over `ℚ` (with dummy primitives) and can be
instantiated at `ℝ` with the genuine transcendental functions.
-/

namespace EasyNN

/-- ActivationType from `types/neural-network.ts`. -/
inductive ActivationType where
  | linear
  | relu
  | sigmoid
  | tanh
  deriving DecidableEq, Repr

/-- LossType from `types/neural-network.ts`. -/
inductive LossType where
  | mse
  | mae
  deriving DecidableEq, Repr

/-- LayerType from `types/neural-network.ts`. -/
inductive LayerType where
  | input
  | hidden
  | output
  deriving DecidableEq, Repr

/-- The `Layer` configuration interface from `types/neural-network.ts`. -/
structure Layer where
  neurons : Nat
  activation : ActivationType
  ltype : LayerType
  deriving DecidableEq, Repr

/-- The ambient `Math` primitives used by the `Value` methods. -/
structure Prims (α : Type) where
  exp : α → α
  log : α → α
  sin : α → α
  cos : α → α
  pow : α → α → α

/-- Operation tag of a node, together with the identities (indices) of its
operands and any constant captured at construction time.  This combines the
source's `_op` string and `_prev` array: both are set, consistently, from
the same constructor call in the source. -/
inductive Op (α : Type) where
  | leaf
  | add (a b : Nat)
  | sub (a b : Nat)
  | mul (a b : Nat)
  | div (a b : Nat)
  | pow (a : Nat) (k : α)
  | log (a : Nat)
  | exp (a : Nat)
  | sin (a : Nat)
  | cos (a : Nat)
  | relu (a : Nat)
  | sigmoid (a : Nat)
  | tanh (a : Nat)
  deriving DecidableEq

/-- The `_prev` array of a node, as recorded by each `Value` method. -/
def Op.operands {α : Type} : Op α → List Nat
  | .leaf => []
  | .add a b => [a, b]
  | .sub a b => [a, b]
  | .mul a b => [a, b]
  | .div a b => [a, b]
  | .pow a _ => [a]
  | .log a => [a]
  | .exp a => [a]
  | .sin a => [a]
  | .cos a => [a]
  | .relu a => [a]
  | .sigmoid a => [a]
  | .tanh a => [a]

/-- One `Value` object: `data`, `grad` and the operation that produced it. -/
structure Node (α : Type) where
  data : α
  grad : α
  op : Op α
  deriving DecidableEq

instance {α : Type} [Zero α] : Inhabited (Node α) := ⟨⟨0, 0, .leaf⟩⟩

/-- The heap of all `Value` objects allocated so far. -/
structure Graph (α : Type) where
  nodes : List (Node α)
  deriving DecidableEq

variable {α : Type} [LinearOrderedField α]

/-- Number of allocated nodes. -/
def Graph.size (G : Graph α) : Nat := G.nodes.length

/-- Node at index `i` (a default leaf for a dangling index). -/
def Graph.nodeAt (G : Graph α) (i : Nat) : Node α := G.nodes.getD i default

/-- The `data` field of node `i`. -/
def Graph.data (G : Graph α) (i : Nat) : α := (G.nodeAt i).data

/-- The `grad` field of node `i`. -/
def Graph.grad (G : Graph α) (i : Nat) : α := (G.nodeAt i).grad

/-- The operation that produced node `i`. -/
def Graph.op (G : Graph α) (i : Nat) : Op α := (G.nodeAt i).op

/-- The `_prev` list of node `i`. -/
def Graph.ops (G : Graph α) (i : Nat) : List Nat := (G.op i).operands

/-- Allocate a new node (`new Value(...)`): `grad` starts at `0`. -/
def Graph.push (G : Graph α) (d : α) (op : Op α) : Graph α × Nat :=
  (⟨G.nodes ++ [⟨d, 0, op⟩]⟩, G.nodes.length)

/-- Replace node `i` (no effect on a dangling index, mirroring that such an
access cannot happen in the source). -/
def Graph.setNode (G : Graph α) (i : Nat) (n : Node α) : Graph α :=
  ⟨G.nodes.set i n⟩

/-- Assign the `data` field of node `i` (parameter update by the caller). -/
def Graph.setData (G : Graph α) (i : Nat) (v : α) : Graph α :=
  G.setNode i { G.nodeAt i with data := v }

/-- Assign the `grad` field of node `i` (`grad = v`). -/
def Graph.setGrad (G : Graph α) (i : Nat) (v : α) : Graph α :=
  G.setNode i { G.nodeAt i with grad := v }

/-- Accumulate into the `grad` field of node `i` (`grad += c`). -/
def Graph.addGrad (G : Graph α) (i : Nat) (c : α) : Graph α :=
  G.setNode i { G.nodeAt i with grad := (G.nodeAt i).grad + c }

/-- The empty heap. -/
def Graph.empty (α : Type) : Graph α := ⟨[]⟩

/-- Every node refers only to earlier nodes: true of every graph the source
can build, since operands must exist before a node is constructed. -/
def Graph.WF (G : Graph α) : Prop :=
  ∀ i < G.size, ∀ p ∈ G.ops i, p < i

instance (G : Graph α) : Decidable G.WF := by
  unfold Graph.WF; infer_instance

namespace Value

/-- The `Value` constructor on a raw number: a fresh leaf node. -/
def mk (G : Graph α) (x : α) : Graph α × Nat := G.push x .leaf

/-- Method `add`: value `a + b`, operands `[a, b]`. -/
def add (G : Graph α) (a b : Nat) : Graph α × Nat :=
  G.push (G.data a + G.data b) (.add a b)

/-- Method `sub`: value `a - b`. -/
def sub (G : Graph α) (a b : Nat) : Graph α × Nat :=
  G.push (G.data a - G.data b) (.sub a b)

/-- Method `mul`: value `a * b`. -/
def mul (G : Graph α) (a b : Nat) : Graph α × Nat :=
  G.push (G.data a * G.data b) (.mul a b)

/-- Method `div`: value `a / b` (total, like the IEEE division it models:
the source never throws here, whatever the divisor). -/
def div (G : Graph α) (a b : Nat) : Graph α × Nat :=
  G.push (G.data a / G.data b) (.div a b)

/-- Method `pow` with a constant exponent: value `Math.pow(a, k)`. -/
def pow (P : Prims α) (G : Graph α) (a : Nat) (k : α) : Graph α × Nat :=
  G.push (P.pow (G.data a) k) (.pow a k)

/-- Method `log`: throws when `data <= 0`, otherwise a fresh `log` node.
The `none` result models the thrown error; no node is created then. -/
def log (P : Prims α) (G : Graph α) (a : Nat) : Option (Graph α × Nat) :=
  if G.data a ≤ 0 then none
  else some (G.push (P.log (G.data a)) (.log a))

/-- Method `exp`. -/
def exp (P : Prims α) (G : Graph α) (a : Nat) : Graph α × Nat :=
  G.push (P.exp (G.data a)) (.exp a)

/-- Method `sin`. -/
def sin (P : Prims α) (G : Graph α) (a : Nat) : Graph α × Nat :=
  G.push (P.sin (G.data a)) (.sin a)

/-- Method `cos`. -/
def cos (P : Prims α) (G : Graph α) (a : Nat) : Graph α × Nat :=
  G.push (P.cos (G.data a)) (.cos a)

/-- Method `relu`: value `Math.max(0, a)`. -/
def relu (G : Graph α) (a : Nat) : Graph α × Nat :=
  G.push (max 0 (G.data a)) (.relu a)

/-- Method `sigmoid`: value `1 / (1 + Math.exp(-x))`. -/
def sigmoid (P : Prims α) (G : Graph α) (a : Nat) : Graph α × Nat :=
  G.push (1 / (1 + P.exp (-(G.data a)))) (.sigmoid a)

/-- Method `tanh`: the source computes `(e^(2x) - 1) / (e^(2x) + 1)`. -/
def tanh (P : Prims α) (G : Graph α) (a : Nat) : Graph α × Nat :=
  G.push ((P.exp (2 * G.data a) - 1) / (P.exp (2 * G.data a) + 1)) (.tanh a)

/-- Method call with a raw-number argument: the number is first lifted to a
constant leaf (`other instanceof Value ? other : new Value(other)`). -/
def mulNum (G : Graph α) (a : Nat) (c : α) : Graph α × Nat :=
  (mul (mk G c).1 a (mk G c).2)

end Value

/-- The `_backward` closure of node `i`, acting on the current heap: it reads
the node's own accumulated gradient `g = out.grad` and accumulates each
operand's contribution with `+=`, exactly as each closure in the source. -/
def nodeBackward (P : Prims α) (G : Graph α) (i : Nat) : Graph α :=
  match G.op i with
  | .leaf => G
  | .add a b => (G.addGrad a (1 * G.grad i)).addGrad b (1 * G.grad i)
  | .sub a b => (G.addGrad a (1 * G.grad i)).addGrad b (-1 * G.grad i)
  | .mul a b => (G.addGrad a (G.data b * G.grad i)).addGrad b (G.data a * G.grad i)
  | .div a b =>
      (G.addGrad a (1 / G.data b * G.grad i)).addGrad b
        (-G.data a / (G.data b * G.data b) * G.grad i)
  | .pow a k => G.addGrad a (k * P.pow (G.data a) (k - 1) * G.grad i)
  | .log a => G.addGrad a (1 / G.data a * G.grad i)
  | .exp a => G.addGrad a (G.data i * G.grad i)
  | .sin a => G.addGrad a (P.cos (G.data a) * G.grad i)
  | .cos a => G.addGrad a (-P.sin (G.data a) * G.grad i)
  | .relu a => G.addGrad a ((if 0 < G.data a then 1 else 0) * G.grad i)
  | .sigmoid a => G.addGrad a (G.data i * (1 - G.data i) * G.grad i)
  | .tanh a => G.addGrad a ((1 - G.data i * G.data i) * G.grad i)

/-- The `buildTopo` depth-first traversal of `backward`: state is the pair
(visited set, post-order list).  The fuel argument only serves termination;
on an acyclic graph operand indices strictly decrease, so fuel `i + 1`
always suffices to explore from node `i`. -/
def buildTopo (G : Graph α) : Nat → Nat → List Nat × List Nat → List Nat × List Nat
  | 0, _, st => st
  | fuel + 1, i, st =>
    if i ∈ st.1 then st
    else
      let st1 := (G.ops i).foldl (fun s p => buildTopo G fuel p s) (i :: st.1, st.2)
      (st1.1, st1.2 ++ [i])

/-- The post-order list recorded by `buildTopo(root)`. -/
def topoOf (G : Graph α) (r : Nat) : List Nat := (buildTopo G (r + 1) r ([], [])).2

/-- Method `backward`: build the topological order, seed the root gradient
with `1.0` (assignment, not accumulation), then run every `_backward` in
reverse post-order. -/
def Value.backward (P : Prims α) (G : Graph α) (r : Nat) : Graph α :=
  ((topoOf G r).reverse).foldl (fun H j => nodeBackward P H j) (G.setGrad r 1)

/-- Dummy primitives for executable sanity checks over `ℚ`; the claims that
depend on the genuine transcendental functions are stated over `ℝ`. -/
def trivPrims : Prims ℚ := ⟨id, id, id, id, fun a _ => a⟩

/-- Error taxonomy: `dim` is a DimensionMismatch carrying the given and the
expected length (the source interpolates both into the message); `state` is
the StateError of `getActivations`; `topology` is the too-few-layers error
of `createNetwork` and `creation` its generic validation failure. -/
inductive Err where
  | dim (given expected : Nat)
  | state
  | topology
  | creation
  deriving DecidableEq, Repr

instance {ε β : Type} [DecidableEq ε] [DecidableEq β] :
    DecidableEq (Except ε β) := fun a b =>
  match a, b with
  | .ok x, .ok y =>
    match decEq x y with
    | isTrue h => isTrue (h ▸ rfl)
    | isFalse h => isFalse (fun hc => h (Except.ok.inj hc))
  | .error x, .error y =>
    match decEq x y with
    | isTrue h => isTrue (h ▸ rfl)
    | isFalse h => isFalse (fun hc => h (Except.error.inj hc))
  | .ok _, .error _ => isFalse (fun hc => Except.noConfusion hc)
  | .error _, .ok _ => isFalse (fun hc => Except.noConfusion hc)

/-- A `Neuron`: weight node indices, bias node index, the `nonlin` flag and
the activation tag (the shorter source revision has no tag, which is the
`relu` default here). -/
structure Neuron where
  w : List Nat
  b : Nat
  nonlin : Bool
  activation : ActivationType
  deriving DecidableEq, Repr

/-- Weight initialisation loop of the `Neuron` constructor: `nin` fresh
leaves whose data is `Math.random() * 0.1 - 0.05`, drawn from the random
stream starting at position `k`. -/
def mkWeights (rand : Nat → α) : Graph α → Nat → Nat → Graph α × Nat × List Nat
  | G, k, 0 => (G, k, [])
  | G, k, n + 1 =>
    let v := Value.mk G (rand k * (1 / 10) - 1 / 20)
    let s := mkWeights rand v.1 (k + 1) n
    (s.1, s.2.1, v.2 :: s.2.2)

/-- The `Neuron` constructor: `nin` fresh weight leaves, then a zero bias
leaf.  `k` is the position already consumed from the random stream. -/
def Neuron.init (G : Graph α) (rand : Nat → α) (k : Nat) (nin : Nat)
    (activation : ActivationType) (nonlin : Bool) :
    Graph α × Nat × Neuron :=
  let ws := mkWeights rand G k nin
  let b := Value.mk ws.1 0
  (b.1, ws.2.1, ⟨ws.2.2, b.2, nonlin, activation⟩)

/-- The accumulation loop of `Neuron.forward`:
`act = act.add(this.w[i].mul(x[i]))`, starting from the bias node. -/
def neuronAcc (G : Graph α) (acc : Nat) : List (Nat × Nat) → Graph α × Nat
  | [] => (G, acc)
  | wx :: l =>
    let m := Value.mul G wx.1 wx.2
    let a := Value.add m.1 acc m.2
    neuronAcc a.1 a.2 l

/-- Method `Neuron.forward`: length check first, then the accumulation
starting from the bias node, then the activation dispatch (skipped entirely
when `nonlin` is false). -/
def Neuron.forward (P : Prims α) (G : Graph α) (n : Neuron) (x : List Nat) :
    Except Err (Graph α × Nat) :=
  if x.length = n.w.length then
    let acc := neuronAcc G n.b (n.w.zip x)
    if n.nonlin then
      match n.activation with
      | .relu => .ok (Value.relu acc.1 acc.2)
      | .sigmoid => .ok (Value.sigmoid P acc.1 acc.2)
      | .tanh => .ok (Value.tanh P acc.1 acc.2)
      | .linear => .ok acc
    else .ok acc
  else .error (.dim x.length n.w.length)

/-- A `NeuronLayer`: its neurons. -/
structure NeuronLayer where
  neurons : List Neuron
  deriving DecidableEq, Repr

/-- The neuron-building loop of the `NeuronLayer` constructor. -/
def mkNeurons (rand : Nat → α) (nin : Nat) (activation : ActivationType)
    (nonlin : Bool) : Graph α → Nat → Nat → Graph α × Nat × List Neuron
  | G, k, 0 => (G, k, [])
  | G, k, nout + 1 =>
    let g := Neuron.init G rand k nin activation nonlin
    let s := mkNeurons rand nin activation nonlin g.1 g.2.1 nout
    (s.1, s.2.1, g.2.2 :: s.2.2)

/-- The `NeuronLayer` constructor: `nout` neurons of arity `nin`. -/
def NeuronLayer.init (G : Graph α) (rand : Nat → α) (k : Nat)
    (nin nout : Nat) (activation : ActivationType) (nonlin : Bool) :
    Graph α × Nat × NeuronLayer :=
  let s := mkNeurons rand nin activation nonlin G k nout
  (s.1, s.2.1, ⟨s.2.2⟩)

/-- Method `NeuronLayer.forward`: each neuron fed the same inputs. -/
def NeuronLayer.forward (P : Prims α) (G : Graph α) (l : NeuronLayer)
    (x : List Nat) : Except Err (Graph α × List Nat) :=
  l.neurons.foldlM
    (fun (s : Graph α × List Nat) n =>
      match Neuron.forward P s.1 n x with
      | .ok g => .ok (g.1, s.2 ++ [g.2])
      | .error e => .error e)
    (G, [])

/-- An `MLP`: layers, the stored input of the most recent forward pass,
the expected input size and the requested layer widths. -/
structure MLP where
  layers : List NeuronLayer
  inputLayer : Option (List Nat)
  inputSize : Nat
  layerSizes : List Nat
  deriving DecidableEq, Repr

/-- The layer-building loop of the `MLP` constructor, written as recursion
on the remaining widths: layer `i` maps `sizes[i]` inputs to `sizes[i+1]`
outputs with activation `activations[i] || 'relu'`, and `nonlin` is false
exactly on the final layer (`i !== nouts.length - 1`). -/
def mkLayers (rand : Nat → α) (G : Graph α) (k nin : Nat) :
    List Nat → List ActivationType → Graph α × Nat × List NeuronLayer
  | [], _ => (G, k, [])
  | nout :: rest, acts =>
    let l := NeuronLayer.init G rand k nin nout (acts.headD .relu) (rest ≠ [])
    let s := mkLayers rand l.1 l.2.1 nout rest acts.tail
    (s.1, s.2.1, l.2.2 :: s.2.2)

/-- The `MLP` constructor. -/
def MLP.init (nin : Nat) (nouts : List Nat) (activations : List ActivationType)
    (rand : Nat → α) (G : Graph α) : Graph α × MLP :=
  let s := mkLayers rand G 0 nin nouts activations
  (s.1, ⟨s.2.2, none, nin, nouts⟩)

/-- Method `MLP.forward`: the length check comes first; on success the
input is stored for `getActivations` and the layers are run in order.  (The
layer loop of a constructor-built network cannot itself fail, see
`mlpForward_layers_ok`; a failure there would leave `inputLayer` assigned,
which this functional model cannot express, but no claim depends on it.) -/
def MLP.forward (P : Prims α) (G : Graph α) (m : MLP) (x : List Nat) :
    Except Err (Graph α × MLP × List Nat) :=
  if x.length = m.inputSize then
    match m.layers.foldlM
      (fun (s : Graph α × List Nat) l => NeuronLayer.forward P s.1 l s.2)
      (G, x) with
    | .ok g => .ok (g.1, { m with inputLayer := some x }, g.2)
    | .error e => .error e
  else .error (.dim x.length m.inputSize)

/-- Method `MLP.getActivations`: StateError when no forward pass has stored
an input, otherwise the stored input row followed by one freshly recomputed
row per layer. -/
def MLP.getActivations (P : Prims α) (G : Graph α) (m : MLP) :
    Except Err (Graph α × List (List Nat)) :=
  match m.inputLayer with
  | none => .error .state
  | some inp =>
    match m.layers.foldlM
      (fun (s : Graph α × List (List Nat) × List Nat) l =>
        (match NeuronLayer.forward P s.1 l s.2.2 with
         | .ok g => .ok (g.1, s.2.1 ++ [g.2], g.2)
         | .error e => .error e :
         Except Err (Graph α × List (List Nat) × List Nat)))
      (G, [inp], inp) with
    | .ok s => .ok (s.1, s.2.1)
    | .error e => .error e

/-- Helper of `createNetwork`: the zero-valued test input leaves. -/
def mkZeros (G : Graph α) : Nat → Graph α × List Nat
  | 0 => (G, [])
  | n + 1 =>
    let v := Value.mk G 0
    let s := mkZeros v.1 n
    (s.1, v.2 :: s.2)

/-- The `createNetwork` helper: rejects fewer than two layer entries, builds
the `MLP` from the widths — passing NO activation list, so every layer gets
the `relu` default whatever the configuration says — and validates it with
a forward pass on zero inputs (whose nodes stay allocated, and which leaves
`inputLayer` assigned on the returned network). -/
def createNetwork (P : Prims α) (layers : List Layer) (rand : Nat → α)
    (G : Graph α) : Except Err (Graph α × MLP) :=
  if layers.length < 2 then .error .topology
  else
    let nouts := (layers.drop 1).map (fun l => l.neurons)
    let nin := (layers.headD ⟨0, .linear, .input⟩).neurons
    let net := MLP.init nin nouts [] rand G
    let test := mkZeros net.1 nin
    match MLP.forward P test.1 net.2 test.2 with
    | .ok s => .ok (s.1, s.2.1)
    | .error _ => .error .creation

/-- The `calculateLoss` helper: the target number becomes a constant leaf;
`mse` builds `(pred + target*(-1)) * (pred + target*(-1))` with two
independent difference subgraphs, `mae` builds `relu(diff) + relu(diff*(-1))`
sharing one difference node.  Node creation follows the JavaScript
evaluation order of the source expression. -/
def calculateLoss (G : Graph α) (predicted : Nat) (target : α)
    (ltype : LossType) : Graph α × Nat :=
  let tv := Value.mk G target
  match ltype with
  | .mse =>
    let n1 := Value.mulNum tv.1 tv.2 (-1)
    let d1 := Value.add n1.1 predicted n1.2
    let n2 := Value.mulNum d1.1 tv.2 (-1)
    let d2 := Value.add n2.1 predicted n2.2
    Value.mul d2.1 d1.2 d2.2
  | .mae =>
    let n1 := Value.mulNum tv.1 tv.2 (-1)
    let d := Value.add n1.1 predicted n1.2
    let r1 := Value.relu d.1 d.2
    let n2 := Value.mulNum r1.1 d.2 (-1)
    let r2 := Value.relu n2.1 n2.2
    Value.add r2.1 r1.2 r2.2

/-- Reachability along operand edges, from the root towards the leaves. -/
inductive Reachable (G : Graph α) : Nat → Nat → Prop where
  | refl (i : Nat) : Reachable G i i
  | step {i p j : Nat} : p ∈ G.ops i → Reachable G p j → Reachable G i j

/-- A list of node indices closed under taking operands. -/
def Closed (G : Graph α) (L : List Nat) : Prop :=
  ∀ j ∈ L, ∀ p ∈ G.ops j, p ∈ L

/-- No element of the list has an operand occurring at a later position. -/
def OrderOk (G : Graph α) (L : List Nat) : Prop :=
  L.Pairwise (fun a b => b ∉ G.ops a)

/-- Invariant of the traversal state required on entry to `buildTopo` at node
`i`: the recorded list is sound so far, and every visited node is either
fully recorded or still on the recursion stack (hence of index above `i`). -/
def DfsPre (G : Graph α) (i : Nat) (vis topo : List Nat) : Prop :=
  topo.Nodup ∧ Closed G topo ∧ OrderOk G topo ∧ (∀ q ∈ topo, q ∈ vis) ∧
  (∀ q ∈ vis, q ∈ topo ∨ i < q)

/-- What `buildTopo` at node `i` guarantees about its result state. -/
def DfsPost (G : Graph α) (i : Nat) (vis topo : List Nat)
    (st : List Nat × List Nat) : Prop :=
  (∃ δ, st.2 = topo ++ δ) ∧
  st.2.Nodup ∧ Closed G st.2 ∧ OrderOk G st.2 ∧ (∀ q ∈ st.2, q ∈ st.1) ∧
  (∀ q, q ∈ st.2 ↔ q ∈ topo ∨ Reachable G i q) ∧
  (∀ q, q ∈ st.1 ↔ q ∈ vis ∨ q ∈ st.2)

/-- Invariant carried through the child loop of `buildTopo` at node `i` (the node
itself is already in the visited set, so the stack threshold is `i ≤ _`). -/
def FoldPre (G : Graph α) (i : Nat) (vis topo : List Nat) : Prop :=
  topo.Nodup ∧ Closed G topo ∧ OrderOk G topo ∧ (∀ q ∈ topo, q ∈ vis) ∧
  (∀ q ∈ vis, q ∈ topo ∨ i ≤ q)

/-- What the child loop of `buildTopo` at node `i` over children `l` guarantees. -/
def FoldPost (G : Graph α) (i : Nat) (l : List Nat) (vis topo : List Nat)
    (st : List Nat × List Nat) : Prop :=
  (∃ δ, st.2 = topo ++ δ) ∧
  st.2.Nodup ∧ Closed G st.2 ∧ OrderOk G st.2 ∧ (∀ q ∈ st.2, q ∈ st.1) ∧
  (∀ q ∈ st.1, q ∈ st.2 ∨ i ≤ q) ∧
  (∀ q, q ∈ st.2 ↔ q ∈ topo ∨ ∃ p ∈ l, Reachable G p q) ∧
  (∀ q, q ∈ st.1 ↔ q ∈ vis ∨ q ∈ st.2)

/-- The statement of claim C3 about the recorded post-order list: every
node sits strictly after each of its operands, and every node reachable
from the root occurs exactly once. -/
def TopoSpec (G : Graph α) (r : Nat) : Prop :=
  (∀ k, (hk : k < (topoOf G r).length) →
    ∀ p ∈ G.ops ((topoOf G r).get ⟨k, hk⟩),
      ∃ m, ∃ hm : m < (topoOf G r).length,
        m < k ∧ (topoOf G r).get ⟨m, hm⟩ = p) ∧
  (∀ q, Reachable G r q → (topoOf G r).count q = 1) ∧
  (∀ q, q ∈ topoOf G r → Reachable G r q)

/-- Heap `G1` extends heap `G0` by freshly allocated nodes only, all with a
zero gradient; the graph-building operations only ever grow the heap this
way and never touch an existing node. -/
def GrowthOk (G0 G1 : Graph α) : Prop :=
  ∃ L, G1.nodes = G0.nodes ++ L ∧ ∀ n ∈ L, Node.grad n = 0

/-- Arity bookkeeping of a layer stack against an input width: every neuron
of each layer has exactly one weight per current input, and the layer's
neuron count is the next width.  Constructor-built networks satisfy this. -/
def arityFits : Nat → List NeuronLayer → Bool
  | _, [] => true
  | len, l :: rest =>
    l.neurons.all (fun n => n.w.length == len) && arityFits l.neurons.length rest

/-- Like `arityFits`, but additionally every input width along the stack is
positive (no zero-arity neuron, which would return its bias node as is). -/
def arityPos : Nat → List NeuronLayer → Bool
  | _, [] => true
  | len, l :: rest =>
    decide (0 < len) && l.neurons.all (fun n => n.w.length == len) &&
      arityPos l.neurons.length rest

/-- Weighted sum of the data of index pairs, as read off a given heap. -/
def wsum (G : Graph α) (l : List (Nat × Nat)) : α :=
  (l.map (fun wx => G.data wx.1 * G.data wx.2)).sum

/-- The statement of claim C2: for every operation of the section 4.1
table, the constructed node's value is the table's forward formula on the
operand values, and its backward rule accumulates exactly the table's
contribution, with upstream gradient `g = out.grad`, into each operand's
gradient and changes nothing else. -/
def OpTableSpec (P : Prims ℝ) : Prop :=
  (∀ G : Graph ℝ, ∀ a b : Nat,
    (Value.add G a b).2 = G.size ∧
    (Value.add G a b).1.data G.size = G.data a + G.data b ∧
    (Value.add G a b).1.op G.size = Op.add a b) ∧
  (∀ H : Graph ℝ, ∀ o a b : Nat, H.op o = Op.add a b → a < o → b < o →
    (∀ q, (nodeBackward P H o).data q = H.data q) ∧
    (∀ q, (nodeBackward P H o).op q = H.op q) ∧
    (∀ q, (nodeBackward P H o).grad q = H.grad q +
      (if q = a then H.grad o else 0) + (if q = b then H.grad o else 0))) ∧
  (∀ G : Graph ℝ, ∀ a b : Nat,
    (Value.sub G a b).2 = G.size ∧
    (Value.sub G a b).1.data G.size = G.data a - G.data b ∧
    (Value.sub G a b).1.op G.size = Op.sub a b) ∧
  (∀ H : Graph ℝ, ∀ o a b : Nat, H.op o = Op.sub a b → a < o → b < o →
    (∀ q, (nodeBackward P H o).data q = H.data q) ∧
    (∀ q, (nodeBackward P H o).op q = H.op q) ∧
    (∀ q, (nodeBackward P H o).grad q = H.grad q +
      (if q = a then H.grad o else 0) + (if q = b then -H.grad o else 0))) ∧
  (∀ G : Graph ℝ, ∀ a b : Nat,
    (Value.mul G a b).2 = G.size ∧
    (Value.mul G a b).1.data G.size = G.data a * G.data b ∧
    (Value.mul G a b).1.op G.size = Op.mul a b) ∧
  (∀ H : Graph ℝ, ∀ o a b : Nat, H.op o = Op.mul a b → a < o → b < o →
    (∀ q, (nodeBackward P H o).data q = H.data q) ∧
    (∀ q, (nodeBackward P H o).op q = H.op q) ∧
    (∀ q, (nodeBackward P H o).grad q = H.grad q +
      (if q = a then H.grad o * H.data b else 0) +
      (if q = b then H.grad o * H.data a else 0))) ∧
  (∀ G : Graph ℝ, ∀ a b : Nat,
    (Value.div G a b).2 = G.size ∧
    (Value.div G a b).1.data G.size = G.data a / G.data b ∧
    (Value.div G a b).1.op G.size = Op.div a b) ∧
  (∀ H : Graph ℝ, ∀ o a b : Nat, H.op o = Op.div a b → a < o → b < o →
    (∀ q, (nodeBackward P H o).data q = H.data q) ∧
    (∀ q, (nodeBackward P H o).op q = H.op q) ∧
    (∀ q, (nodeBackward P H o).grad q = H.grad q +
      (if q = a then H.grad o / H.data b else 0) +
      (if q = b then -(H.grad o * H.data a) / H.data b ^ 2 else 0))) ∧
  (∀ G : Graph ℝ, ∀ a : Nat, ∀ k : ℝ,
    (Value.pow P G a k).2 = G.size ∧
    (Value.pow P G a k).1.data G.size = P.pow (G.data a) k ∧
    (Value.pow P G a k).1.op G.size = Op.pow a k) ∧
  (∀ H : Graph ℝ, ∀ o a : Nat, ∀ k : ℝ, H.op o = Op.pow a k → a < o →
    (∀ q, (nodeBackward P H o).data q = H.data q) ∧
    (∀ q, (nodeBackward P H o).op q = H.op q) ∧
    (∀ q, (nodeBackward P H o).grad q = H.grad q +
      (if q = a then H.grad o * (k * P.pow (H.data a) (k - 1)) else 0))) ∧
  (∀ G : Graph ℝ, ∀ a : Nat, 0 < G.data a →
    ∃ G1 : Graph ℝ, Value.log P G a = some (G1, G.size) ∧
    G1.data G.size = Real.log (G.data a) ∧
    G1.op G.size = Op.log a) ∧
  (∀ H : Graph ℝ, ∀ o a : Nat, H.op o = Op.log a → a < o →
    (∀ q, (nodeBackward P H o).data q = H.data q) ∧
    (∀ q, (nodeBackward P H o).op q = H.op q) ∧
    (∀ q, (nodeBackward P H o).grad q = H.grad q +
      (if q = a then H.grad o / H.data a else 0))) ∧
  (∀ G : Graph ℝ, ∀ a : Nat,
    (Value.exp P G a).2 = G.size ∧
    (Value.exp P G a).1.data G.size = Real.exp (G.data a) ∧
    (Value.exp P G a).1.op G.size = Op.exp a) ∧
  (∀ H : Graph ℝ, ∀ o a : Nat, H.op o = Op.exp a → a < o →
    (∀ q, (nodeBackward P H o).data q = H.data q) ∧
    (∀ q, (nodeBackward P H o).op q = H.op q) ∧
    (∀ q, (nodeBackward P H o).grad q = H.grad q +
      (if q = a then H.grad o * H.data o else 0))) ∧
  (∀ G : Graph ℝ, ∀ a : Nat,
    (Value.sin P G a).2 = G.size ∧
    (Value.sin P G a).1.data G.size = Real.sin (G.data a) ∧
    (Value.sin P G a).1.op G.size = Op.sin a) ∧
  (∀ H : Graph ℝ, ∀ o a : Nat, H.op o = Op.sin a → a < o →
    (∀ q, (nodeBackward P H o).data q = H.data q) ∧
    (∀ q, (nodeBackward P H o).op q = H.op q) ∧
    (∀ q, (nodeBackward P H o).grad q = H.grad q +
      (if q = a then H.grad o * Real.cos (H.data a) else 0))) ∧
  (∀ G : Graph ℝ, ∀ a : Nat,
    (Value.cos P G a).2 = G.size ∧
    (Value.cos P G a).1.data G.size = Real.cos (G.data a) ∧
    (Value.cos P G a).1.op G.size = Op.cos a) ∧
  (∀ H : Graph ℝ, ∀ o a : Nat, H.op o = Op.cos a → a < o →
    (∀ q, (nodeBackward P H o).data q = H.data q) ∧
    (∀ q, (nodeBackward P H o).op q = H.op q) ∧
    (∀ q, (nodeBackward P H o).grad q = H.grad q +
      (if q = a then -(H.grad o * Real.sin (H.data a)) else 0))) ∧
  (∀ G : Graph ℝ, ∀ a : Nat,
    (Value.relu G a).2 = G.size ∧
    (Value.relu G a).1.data G.size = max 0 (G.data a) ∧
    (Value.relu G a).1.op G.size = Op.relu a) ∧
  (∀ H : Graph ℝ, ∀ o a : Nat, H.op o = Op.relu a → a < o →
    (∀ q, (nodeBackward P H o).data q = H.data q) ∧
    (∀ q, (nodeBackward P H o).op q = H.op q) ∧
    (∀ q, (nodeBackward P H o).grad q = H.grad q +
      (if q = a then H.grad o * (if 0 < H.data a then 1 else 0) else 0))) ∧
  (∀ G : Graph ℝ, ∀ a : Nat,
    (Value.sigmoid P G a).2 = G.size ∧
    (Value.sigmoid P G a).1.data G.size = 1 / (1 + Real.exp (-G.data a)) ∧
    (Value.sigmoid P G a).1.op G.size = Op.sigmoid a) ∧
  (∀ H : Graph ℝ, ∀ o a : Nat, H.op o = Op.sigmoid a → a < o →
    (∀ q, (nodeBackward P H o).data q = H.data q) ∧
    (∀ q, (nodeBackward P H o).op q = H.op q) ∧
    (∀ q, (nodeBackward P H o).grad q = H.grad q +
      (if q = a then H.grad o * (H.data o * (1 - H.data o)) else 0))) ∧
  (∀ G : Graph ℝ, ∀ a : Nat,
    (Value.tanh P G a).2 = G.size ∧
    (Value.tanh P G a).1.data G.size = Real.tanh (G.data a) ∧
    (Value.tanh P G a).1.op G.size = Op.tanh a) ∧
  (∀ H : Graph ℝ, ∀ o a : Nat, H.op o = Op.tanh a → a < o →
    (∀ q, (nodeBackward P H o).data q = H.data q) ∧
    (∀ q, (nodeBackward P H o).op q = H.op q) ∧
    (∀ q, (nodeBackward P H o).grad q = H.grad q +
      (if q = a then H.grad o * (1 - H.data o ^ 2) else 0)))

/-! Concrete scenario instances, over `ℚ` so that they evaluate by `decide`:
the section 8 end-to-end scenario A, the double-backward chain, the
degenerate zero-arity network, and the `createNetwork` activation scenario. -/

/-- Scenario A network: widths `[1, 1]`, so the single layer is the final
one and applies no activation (identity).  Node 0 is the weight leaf, node
1 the bias leaf. -/
def c1Net : Graph ℚ × MLP := MLP.init 1 [1] [] (fun _ => 0) (Graph.empty ℚ)

/-- Scenario A heap with the weight set to `2.0` and the bias to `0.0`. -/
def c1G1 : Graph ℚ := ((c1Net.1).setData 0 2).setData 1 0

/-- Scenario A input leaf carrying `3.0` (node 2). -/
def c1In : Graph ℚ × Nat := Value.mk c1G1 3

/-- Scenario A forward pass. -/
def c1Fwd : Except Err (Graph ℚ × MLP × List Nat) :=
  MLP.forward trivPrims c1In.1 c1Net.2 [c1In.2]

/-- Scenario A output node. -/
def c1Out : Nat := match c1Fwd with | .ok s => s.2.2.headD 0 | .error _ => 0

/-- Scenario A heap after the forward pass. -/
def c1G2 : Graph ℚ := match c1Fwd with | .ok s => s.1 | .error _ => c1In.1

/-- Scenario A mean-squared-error loss against target `10.0`. -/
def c1Loss : Graph ℚ × Nat := calculateLoss c1G2 c1Out 10 LossType.mse

/-- Scenario A heap after `backward()` on the loss node. -/
def c1Final : Graph ℚ := Value.backward trivPrims c1Loss.1 c1Loss.2

/-- Double-backward chain, node 0: a leaf carrying `1`. -/
def c4A : Graph ℚ × Nat := Value.mk (Graph.empty ℚ) 1

/-- Double-backward chain, node 1: `relu` of node 0. -/
def c4B : Graph ℚ × Nat := Value.relu c4A.1 c4A.2

/-- Double-backward chain, node 2 (the root): `relu` of node 1. -/
def c4C : Graph ℚ × Nat := Value.relu c4B.1 c4B.2

/-- The chain after one `backward()` from the zeroed state. -/
def c4Once : Graph ℚ := Value.backward trivPrims c4C.1 c4C.2

/-- The chain after a second `backward()` with no gradient reset. -/
def c4Twice : Graph ℚ := Value.backward trivPrims c4Once c4C.2

/-- A two-leaf product graph with symbolic leaf data, for the depth-one
double-backward statement: nodes `0 : x`, `1 : y`, `2 : x * y`. -/
def mulPair (x y : α) : Graph α :=
  (Value.mul (Value.mk (Value.mk (Graph.empty α) x).1 y).1 0 1).1

/-- A two-leaf sum graph with symbolic leaf data: nodes `0 : x`, `1 : y`,
`2 : x + y`. -/
def addPair (x y : α) : Graph α :=
  (Value.add (Value.mk (Value.mk (Graph.empty α) x).1 y).1 0 1).1

/-- Degenerate network with input width `0`: its single (final) neuron has
no weights, so `forward` returns the bias node itself (node 0). -/
def c9Net : Graph ℚ × MLP := MLP.init 0 [1] [] (fun _ => 0) (Graph.empty ℚ)

/-- Forward pass of the degenerate network on the empty input. -/
def c9Fwd : Except Err (Graph ℚ × MLP × List Nat) :=
  MLP.forward trivPrims c9Net.1 c9Net.2 []

/-- Heap after that forward pass. -/
def c9G : Graph ℚ := match c9Fwd with | .ok s => s.1 | .error _ => c9Net.1

/-- The network state storing the empty input. -/
def c9M : MLP := match c9Fwd with | .ok s => s.2.1 | .error _ => c9Net.2

/-- Heap after `backward()` on the returned output node (the bias, node 0),
which leaves that node with gradient `1`. -/
def c9B : Graph ℚ := Value.backward trivPrims c9G 0

/-- A layer configuration requesting a `sigmoid` hidden layer. -/
def c5Cfg : List Layer :=
  [⟨1, ActivationType.linear, LayerType.input⟩,
   ⟨1, ActivationType.sigmoid, LayerType.hidden⟩,
   ⟨1, ActivationType.linear, LayerType.output⟩]

/-- The network `createNetwork` builds from that configuration (the random
stream is chosen so every weight is exactly `0`). -/
def c5Res : Except Err (Graph ℚ × MLP) :=
  createNetwork trivPrims c5Cfg (fun _ => 1 / 2) (Graph.empty ℚ)

/-- The activation tags of all neurons of the created network. -/
def c5Tags : List (List ActivationType) :=
  match c5Res with
  | .ok s => s.2.layers.map (fun l => l.neurons.map (fun n => n.activation))
  | .error _ => []

/-- The operation of the node produced by the created network's hidden
layer on a fresh input leaf: the claim expects a sigmoid node, the code
builds a relu node. -/
def c5Hidden : Op ℚ :=
  match c5Res with
  | .ok s =>
    let inp := Value.mk s.1 5
    match NeuronLayer.forward trivPrims inp.1 (s.2.layers.headD ⟨[]⟩)
        [inp.2] with
    | .ok t => t.1.op (t.2.headD 0)
    | .error _ => Op.leaf
  | .error _ => Op.leaf

/-- The scenario A network state after its forward pass (it stores the
input row `[2]`, the index of the input leaf). -/
def c1M : MLP := match c1Fwd with | .ok s => s.2.1 | .error _ => c1Net.2

/-- A small shared demonstration graph with a diamond (node 0 feeds both
node 2 and node 3): `0 : 2`, `1 : 3`, `2 : 0 * 1`, `3 : 2 + 0`. -/
def demoG : Graph ℚ :=
  let a := Value.mk (Graph.empty ℚ) 2
  let b := Value.mk a.1 3
  let m := Value.mul b.1 a.2 b.2
  let s := Value.add m.1 m.2 a.2
  s.1

/-! Helper lemmas: list access, heap accessors, well-formedness. -/

theorem getD_concat {β : Type} (l : List β) (x d : β) (q : Nat) :
    (l ++ [x]).getD q d = if q = l.length then x else l.getD q d := by
  induction l generalizing q with
  | nil =>
    cases q with
    | zero => simp
    | succ q => simp [List.getD_cons_succ]
  | cons h t ih =>
    cases q with
    | zero => simp
    | succ q => simpa [List.getD_cons_succ] using ih q

theorem getD_set {β : Type} (l : List β) (p q : Nat) (x d : β)
    (hp : p < l.length) :
    (l.set p x).getD q d = if q = p then x else l.getD q d := by
  induction l generalizing p q with
  | nil => simp at hp
  | cons h t ih =>
    cases p with
    | zero => cases q <;> simp
    | succ p =>
      cases q with
      | zero => simp
      | succ q =>
        have hp2 : p < t.length := by simpa using hp
        simpa [List.getD_cons_succ] using ih p q hp2

theorem nodeAt_push (G : Graph α) (d : α) (op : Op α) (q : Nat) :
    (G.push d op).1.nodeAt q = if q = G.size then ⟨d, 0, op⟩ else G.nodeAt q := by
  have h := getD_concat G.nodes (⟨d, 0, op⟩ : Node α) default q
  simpa [Graph.push, Graph.nodeAt, Graph.size] using h

theorem push_size (G : Graph α) (d : α) (op : Op α) :
    (G.push d op).1.size = G.size + 1 := by
  simp [Graph.push, Graph.size]

theorem push_idx (G : Graph α) (d : α) (op : Op α) :
    (G.push d op).2 = G.size := rfl

theorem data_push (G : Graph α) (d : α) (op : Op α) (q : Nat) :
    (G.push d op).1.data q = if q = G.size then d else G.data q := by
  by_cases h : q = G.size <;> simp [Graph.data, nodeAt_push, h]

theorem grad_push (G : Graph α) (d : α) (op : Op α) (q : Nat) :
    (G.push d op).1.grad q = if q = G.size then 0 else G.grad q := by
  by_cases h : q = G.size <;> simp [Graph.grad, nodeAt_push, h]

theorem op_push (G : Graph α) (d : α) (op : Op α) (q : Nat) :
    (G.push d op).1.op q = if q = G.size then op else G.op q := by
  by_cases h : q = G.size <;> simp [Graph.op, nodeAt_push, h]

theorem nodeAt_of_le (G : Graph α) {i : Nat} (h : G.size ≤ i) :
    G.nodeAt i = default :=
  List.getD_eq_default _ _ h

theorem default_op : (default : Node α).op = Op.leaf := rfl

theorem ops_of_le (G : Graph α) {i : Nat} (h : G.size ≤ i) : G.ops i = [] := by
  simp [Graph.ops, Graph.op, nodeAt_of_le G h, Op.operands]

theorem op_ne_leaf_lt {G : Graph α} {o : Nat} (h : G.op o ≠ Op.leaf) :
    o < G.size := by
  by_contra hlt
  exact h (by simp [Graph.op, nodeAt_of_le G (Nat.le_of_not_lt hlt), default_op])

theorem nodeAt_setNode (G : Graph α) (i : Nat) (n : Node α) (q : Nat)
    (hi : i < G.size) :
    (G.setNode i n).nodeAt q = if q = i then n else G.nodeAt q := by
  have h := getD_set G.nodes i q n default hi
  simpa [Graph.setNode, Graph.nodeAt] using h

theorem setNode_of_le (G : Graph α) (i : Nat) (n : Node α) (h : G.size ≤ i) :
    G.setNode i n = G := by
  simp [Graph.setNode, List.set_eq_of_length_le h]

theorem setNode_size (G : Graph α) (i : Nat) (n : Node α) :
    (G.setNode i n).size = G.size := by
  simp [Graph.setNode, Graph.size]

theorem ops_lt {G : Graph α} (hWF : G.WF) {i p : Nat} (hp : p ∈ G.ops i) :
    p < i := by
  by_cases hi : i < G.size
  · exact hWF i hi p hp
  · rw [ops_of_le G (Nat.le_of_not_lt hi)] at hp
    simp at hp

theorem data_addGrad (G : Graph α) (i : Nat) (c : α) (q : Nat) :
    (G.addGrad i c).data q = G.data q := by
  by_cases hi : i < G.size
  · simp only [Graph.addGrad, Graph.data, nodeAt_setNode _ _ _ _ hi]
    by_cases hq : q = i <;> simp [hq]
  · simp [Graph.addGrad, setNode_of_le _ _ _ (Nat.le_of_not_lt hi)]

theorem op_addGrad (G : Graph α) (i : Nat) (c : α) (q : Nat) :
    (G.addGrad i c).op q = G.op q := by
  by_cases hi : i < G.size
  · simp only [Graph.addGrad, Graph.op, nodeAt_setNode _ _ _ _ hi]
    by_cases hq : q = i <;> simp [hq]
  · simp [Graph.addGrad, setNode_of_le _ _ _ (Nat.le_of_not_lt hi)]

theorem size_addGrad (G : Graph α) (i : Nat) (c : α) :
    (G.addGrad i c).size = G.size := by
  simp [Graph.addGrad, setNode_size]

theorem grad_addGrad (G : Graph α) (i : Nat) (c : α) (q : Nat)
    (hi : i < G.size) :
    (G.addGrad i c).grad q = if q = i then G.grad i + c else G.grad q := by
  simp only [Graph.addGrad, Graph.grad, nodeAt_setNode _ _ _ _ hi]
  by_cases hq : q = i <;> simp [hq]

theorem grad_addGrad_ne (G : Graph α) (i : Nat) (c : α) (q : Nat)
    (hq : q ≠ i) : (G.addGrad i c).grad q = G.grad q := by
  by_cases hi : i < G.size
  · simp [grad_addGrad _ _ _ _ hi, hq]
  · simp [Graph.addGrad, setNode_of_le _ _ _ (Nat.le_of_not_lt hi)]

theorem grad_setGrad (G : Graph α) (i : Nat) (v : α) (q : Nat)
    (hi : i < G.size) :
    (G.setGrad i v).grad q = if q = i then v else G.grad q := by
  simp only [Graph.setGrad, Graph.grad, nodeAt_setNode _ _ _ _ hi]
  by_cases hq : q = i <;> simp [hq]

theorem data_setGrad (G : Graph α) (i : Nat) (v : α) (q : Nat) :
    (G.setGrad i v).data q = G.data q := by
  by_cases hi : i < G.size
  · simp only [Graph.setGrad, Graph.data, nodeAt_setNode _ _ _ _ hi]
    by_cases hq : q = i <;> simp [hq]
  · simp [Graph.setGrad, setNode_of_le _ _ _ (Nat.le_of_not_lt hi)]

theorem op_setGrad (G : Graph α) (i : Nat) (v : α) (q : Nat) :
    (G.setGrad i v).op q = G.op q := by
  by_cases hi : i < G.size
  · simp only [Graph.setGrad, Graph.op, nodeAt_setNode _ _ _ _ hi]
    by_cases hq : q = i <;> simp [hq]
  · simp [Graph.setGrad, setNode_of_le _ _ _ (Nat.le_of_not_lt hi)]

theorem ops_addGrad (G : Graph α) (i : Nat) (c : α) (q : Nat) :
    (G.addGrad i c).ops q = G.ops q := by
  simp [Graph.ops, op_addGrad]

theorem ops_setGrad (G : Graph α) (i : Nat) (v : α) (q : Nat) :
    (G.setGrad i v).ops q = G.ops q := by
  simp [Graph.ops, op_setGrad]

/-! Reachability lemmas. -/

theorem reach_le {G : Graph α} (hWF : G.WF) {i q : Nat}
    (h : Reachable G i q) : q ≤ i := by
  induction h with
  | refl i => exact Nat.le_refl i
  | step hp _ ih => exact Nat.le_trans ih (Nat.le_of_lt (ops_lt hWF hp))

theorem reach_cases {G : Graph α} {i q : Nat} :
    Reachable G i q ↔ q = i ∨ ∃ p ∈ G.ops i, Reachable G p q := by
  constructor
  · intro h
    cases h with
    | refl => exact Or.inl rfl
    | step hp hr => exact Or.inr ⟨_, hp, hr⟩
  · rintro (rfl | ⟨p, hp, hr⟩)
    · exact Reachable.refl _
    · exact Reachable.step hp hr

theorem closed_reach {G : Graph α} {L : List Nat} (hC : Closed G L) {j q : Nat}
    (hj : j ∈ L) (h : Reachable G j q) : q ∈ L := by
  have key : ∀ {i q2 : Nat}, Reachable G i q2 → i ∈ L → q2 ∈ L := by
    intro i q2 hr
    induction hr with
    | refl i => exact id
    | step hp _ ih => intro hi; exact ih (hC _ hi _ hp)
  exact key h hj

/-! Correctness of the depth-first traversal.  The invariant: the recorded
list stays duplicate-free, operand-closed and operand-ordered, and every
visited node is either fully recorded or still on the recursion stack — in
which case its index exceeds the index currently being explored, because
operand indices strictly decrease on an acyclic heap. -/

theorem dfs_fold {G : Graph α} (hWF : G.WF) (fuel i : Nat) (hif : i ≤ fuel)
    (hspec : ∀ p vis topo, p < fuel → DfsPre G p vis topo →
      DfsPost G p vis topo (buildTopo G fuel p (vis, topo))) :
    ∀ l : List Nat, (∀ p ∈ l, p < i) → ∀ vis topo : List Nat,
      FoldPre G i vis topo →
      FoldPost G i l vis topo
        (l.foldl (fun s p => buildTopo G fuel p s) (vis, topo)) := by
  intro l
  induction l with
  | nil =>
    intro _ vis topo hPre
    obtain ⟨h1, h2, h3, h4, h5⟩ := hPre
    refine ⟨⟨[], by simp⟩, h1, h2, h3, h4, h5, ?_, ?_⟩
    · intro q; simp
    · intro q
      constructor
      · exact fun h => Or.inl h
      · rintro (h | h)
        · exact h
        · exact h4 _ h
  | cons p l ih =>
    intro hl vis topo hPre
    obtain ⟨h1, h2, h3, h4, h5⟩ := hPre
    have hp : p < i := hl p (List.mem_cons_self _ _)
    have hPre2 : DfsPre G p vis topo :=
      ⟨h1, h2, h3, h4, fun q hq => (h5 q hq).imp id (fun h => lt_of_lt_of_le hp h)⟩
    have hPost := hspec p vis topo (lt_of_lt_of_le hp hif) hPre2
    obtain ⟨⟨δ1, hδ1⟩, hN, hC, hO, hSub, hMem, hVis⟩ := hPost
    have hPre3 : FoldPre G i (buildTopo G fuel p (vis, topo)).1
        (buildTopo G fuel p (vis, topo)).2 := by
      refine ⟨hN, hC, hO, hSub, ?_⟩
      intro q hq
      rcases (hVis q).1 hq with hv | hv
      · rcases h5 q hv with ht | hi2
        · exact Or.inl (by rw [hδ1]; exact List.mem_append_left _ ht)
        · exact Or.inr hi2
      · exact Or.inl hv
    have hl2 : ∀ p2 ∈ l, p2 < i := fun p2 h => hl p2 (List.mem_cons_of_mem _ h)
    have hPost2 := ih hl2 _ _ hPre3
    obtain ⟨⟨δ2, hδ2⟩, n2, c2, o2, s2, stk2, m2, v2⟩ := hPost2
    have hfold : (p :: l).foldl (fun s p => buildTopo G fuel p s) (vis, topo) =
        l.foldl (fun s p => buildTopo G fuel p s)
          ((buildTopo G fuel p (vis, topo)).1, (buildTopo G fuel p (vis, topo)).2) := by
      simp [List.foldl_cons]
    rw [hfold]
    refine ⟨⟨δ1 ++ δ2, by rw [hδ2, hδ1, List.append_assoc]⟩,
      n2, c2, o2, s2, stk2, ?_, ?_⟩
    · intro q
      rw [m2 q, hMem q]
      constructor
      · rintro ((ht | hr) | ⟨p2, hp2, hr⟩)
        · exact Or.inl ht
        · exact Or.inr ⟨p, List.mem_cons_self _ _, hr⟩
        · exact Or.inr ⟨p2, List.mem_cons_of_mem _ hp2, hr⟩
      · rintro (ht | ⟨p2, hp2, hr⟩)
        · exact Or.inl (Or.inl ht)
        · rcases List.mem_cons.mp hp2 with h | h
          · subst h; exact Or.inl (Or.inr hr)
          · exact Or.inr ⟨p2, h, hr⟩
    · intro q
      rw [v2 q, hVis q]
      constructor
      · rintro ((hv | ht) | hs)
        · exact Or.inl hv
        · exact Or.inr (by rw [hδ2]; exact List.mem_append_left _ ht)
        · exact Or.inr hs
      · rintro (hv | hs)
        · exact Or.inl (Or.inl hv)
        · exact Or.inr hs

theorem dfs_spec {G : Graph α} (hWF : G.WF) :
    ∀ fuel i vis topo, i < fuel → DfsPre G i vis topo →
      DfsPost G i vis topo (buildTopo G fuel i (vis, topo)) := by
  intro fuel
  induction fuel with
  | zero => intro i _ _ h _; exact absurd h (Nat.not_lt_zero i)
  | succ fuel ih =>
    intro i vis topo hif hPre
    obtain ⟨h1, h2, h3, h4, h5⟩ := hPre
    by_cases hi : i ∈ vis
    · have hres : buildTopo G (fuel + 1) i (vis, topo) = (vis, topo) := by
        simp [buildTopo, hi]
      rw [hres]
      have hiTopo : i ∈ topo := by
        rcases h5 i hi with h | h
        · exact h
        · exact absurd h (lt_irrefl i)
      refine ⟨⟨[], by simp⟩, h1, h2, h3, h4, ?_, ?_⟩
      · intro q
        constructor
        · exact fun h => Or.inl h
        · rintro (h | h)
          · exact h
          · exact closed_reach h2 hiTopo h
      · intro q
        constructor
        · exact fun h => Or.inl h
        · rintro (h | h)
          · exact h
          · exact h4 _ h
    · have hPreF : FoldPre G i (i :: vis) topo := by
        refine ⟨h1, h2, h3, fun q hq => List.mem_cons_of_mem _ (h4 q hq), ?_⟩
        intro q hq
        rcases List.mem_cons.mp hq with h | h
        · subst h; exact Or.inr (Nat.le_refl q)
        · exact (h5 q h).imp id Nat.le_of_lt
      have hFold := dfs_fold hWF fuel i (Nat.lt_succ_iff.mp hif) ih
        (G.ops i) (fun p hp => ops_lt hWF hp) (i :: vis) topo hPreF
      set st1 := (G.ops i).foldl (fun s p => buildTopo G fuel p s) (i :: vis, topo)
        with hst1
      obtain ⟨⟨δ, hδ⟩, hN, hC, hO, hSub, hStk, hMem, hVis⟩ := hFold
      have hres : buildTopo G (fuel + 1) i (vis, topo) = (st1.1, st1.2 ++ [i]) := by
        simp [buildTopo, hi, hst1]
      rw [hres]
      have hiTopo : i ∉ topo := fun h => hi (h4 _ h)
      have hiSt : i ∉ st1.2 := by
        intro h
        rcases (hMem i).1 h with h | ⟨p, hp, hr⟩
        · exact hiTopo h
        · exact absurd (reach_le hWF hr) (Nat.not_le_of_lt (ops_lt hWF hp))
      refine ⟨⟨δ ++ [i], by rw [hδ, List.append_assoc]⟩, ?_, ?_, ?_, ?_, ?_, ?_⟩
      · simp [List.nodup_append, hN, hiSt]
      · intro j hj q hq
        rcases List.mem_append.mp hj with h | h
        · exact List.mem_append_left _ (hC _ h _ hq)
        · have : j = i := by simpa using h
          subst this
          exact List.mem_append_left _
            ((hMem q).2 (Or.inr ⟨q, hq, Reachable.refl q⟩))
      · refine List.pairwise_append.mpr ⟨hO, by simp, ?_⟩
        intro a ha b hb
        have : b = i := by simpa using hb
        subst this
        intro hab
        exact hiSt (hC _ ha _ hab)
      · intro q hq
        rcases List.mem_append.mp hq with h | h
        · exact hSub _ h
        · have : q = i := by simpa using h
          subst this
          exact (hVis q).2 (Or.inl (List.mem_cons_self _ _))
      · intro q
        rw [List.mem_append]
        constructor
        · rintro (h | h)
          · rcases (hMem q).1 h with h | ⟨p, hp, hr⟩
            · exact Or.inl h
            · exact Or.inr (Reachable.step hp hr)
          · have : q = i := by simpa using h
            subst this
            exact Or.inr (Reachable.refl q)
        · rintro (h | h)
          · exact Or.inl ((hMem q).2 (Or.inl h))
          · rcases reach_cases.mp h with h | ⟨p, hp, hr⟩
            · subst h; exact Or.inr (by simp)
            · exact Or.inl ((hMem q).2 (Or.inr ⟨p, hp, hr⟩))
      · intro q
        rw [hVis q, List.mem_append]
        constructor
        · rintro (hv | hs)
          · rcases List.mem_cons.mp hv with h | h
            · subst h; exact Or.inr (Or.inr (by simp))
            · exact Or.inl h
          · exact Or.inr (Or.inl hs)
        · rintro (hv | (hs | hs))
          · exact Or.inl (List.mem_cons_of_mem _ hv)
          · exact Or.inr hs
          · have : q = i := by simpa using hs
            subst this
            exact Or.inl (List.mem_cons_self _ _)

theorem topoOf_props {G : Graph α} (hWF : G.WF) (r : Nat) :
    (topoOf G r).Nodup ∧ Closed G (topoOf G r) ∧ OrderOk G (topoOf G r) ∧
    (∀ q, q ∈ topoOf G r ↔ Reachable G r q) := by
  have hPre : DfsPre G r [] [] := by
    refine ⟨List.nodup_nil, ?_, List.Pairwise.nil, ?_, ?_⟩
    · intro j hj; exact absurd hj (List.not_mem_nil j)
    · intro q hq; exact absurd hq (List.not_mem_nil q)
    · intro q hq; exact absurd hq (List.not_mem_nil q)
  have h := dfs_spec hWF (r + 1) r [] [] (Nat.lt_succ_self r) hPre
  obtain ⟨_, hN, hC, hO, _, hMem, _⟩ := h
  refine ⟨hN, hC, hO, ?_⟩
  intro q
  rw [show topoOf G r = (buildTopo G (r + 1) r ([], [])).2 from rfl, hMem q]
  simp

/-- C3: for every acyclic operand graph and every root node, the post-order
sequence recorded by backward's buildTopo places every node strictly after
all of its operands (each operand occurs at a smaller index), and every
node reachable from the root appears in the sequence exactly once, the
traversal being deduplicated by node identity. -/
theorem C3_topological_order (G : Graph α) (r : Nat) (hWF : G.WF) :
    TopoSpec G r := by
  obtain ⟨hN, hC, hO, hMem⟩ := topoOf_props hWF r
  refine ⟨?_, ?_, ?_⟩
  · intro k hk p hp
    have hj : (topoOf G r).get ⟨k, hk⟩ ∈ topoOf G r := List.get_mem _ k hk
    have hpL : p ∈ topoOf G r := hC _ hj _ hp
    obtain ⟨⟨m, hm⟩, hget⟩ := List.mem_iff_get.mp hpL
    refine ⟨m, hm, ?_, hget⟩
    have hplt : p < (topoOf G r).get ⟨k, hk⟩ := ops_lt hWF hp
    have hne : m ≠ k := by
      intro h
      subst h
      rw [hget] at hplt
      exact lt_irrefl _ hplt
    have hnotlt : ¬k < m := by
      intro hkm
      have hpair := (List.pairwise_iff_get.mp hO) ⟨k, hk⟩ ⟨m, hm⟩
        (Fin.mk_lt_mk.mpr hkm)
      rw [hget] at hpair
      exact hpair hp
    omega
  · intro q hq
    exact List.count_eq_one_of_mem hN ((hMem q).2 hq)
  · intro q hq
    exact (hMem q).1 hq

/-- Witness for C3: the hypothesis and conclusion at the concrete diamond
graph `demoG` with root 3. -/
theorem C3_topological_order_witness : demoG.WF ∧ TopoSpec demoG 3 :=
  ⟨by decide, C3_topological_order demoG 3 (by decide)⟩

/-! The backward pass touches only gradient fields of operands. -/

theorem nodeBackward_op (P : Prims α) (G : Graph α) (i q : Nat) :
    (nodeBackward P G i).op q = G.op q := by
  cases hop : G.op i <;> simp [nodeBackward, hop, op_addGrad]

theorem nodeBackward_data (P : Prims α) (G : Graph α) (i q : Nat) :
    (nodeBackward P G i).data q = G.data q := by
  cases hop : G.op i <;> simp [nodeBackward, hop, data_addGrad]

theorem nodeBackward_size (P : Prims α) (G : Graph α) (i : Nat) :
    (nodeBackward P G i).size = G.size := by
  cases hop : G.op i <;> simp [nodeBackward, hop, size_addGrad]

theorem nodeBackward_grad_ne (P : Prims α) (G : Graph α) (i q : Nat)
    (hq : q ∉ G.ops i) : (nodeBackward P G i).grad q = G.grad q := by
  have key : ∀ (H : Graph α) (x : Nat) (c : α), x ∈ G.ops i →
      H.grad q = G.grad q → (H.addGrad x c).grad q = G.grad q := by
    intro H x c hx hHq
    rw [grad_addGrad_ne H x c q (fun h => hq (h ▸ hx)), hHq]
  cases hop : G.op i <;>
    simp only [nodeBackward, hop] <;>
    first
    | rfl
    | exact key _ _ _ (by simp [Graph.ops, hop, Op.operands]) rfl
    | exact key _ _ _ (by simp [Graph.ops, hop, Op.operands])
        (key _ _ _ (by simp [Graph.ops, hop, Op.operands]) rfl)

theorem backward_fold_inv (P : Prims α) (G0 : Graph α) (r : Nat)
    (l : List Nat) (hl : ∀ j ∈ l, r ∉ G0.ops j) :
    ∀ H : Graph α, (∀ q, H.op q = G0.op q) →
      (l.foldl (fun H2 j => nodeBackward P H2 j) H).grad r = H.grad r ∧
      (∀ q, (l.foldl (fun H2 j => nodeBackward P H2 j) H).op q = G0.op q) := by
  induction l with
  | nil => intro H hops; exact ⟨rfl, hops⟩
  | cons j l ih =>
    intro H hops
    have hops2 : ∀ q, (nodeBackward P H j).op q = G0.op q :=
      fun q => (nodeBackward_op P H j q).trans (hops q)
    have hgr : (nodeBackward P H j).grad r = H.grad r := by
      apply nodeBackward_grad_ne
      have heq : H.ops j = G0.ops j := by simp [Graph.ops, hops j]
      rw [heq]
      exact hl j (List.mem_cons_self _ _)
    obtain ⟨h1, h2⟩ := ih (fun j2 h => hl j2 (List.mem_cons_of_mem _ h))
      (nodeBackward P H j) hops2
    exact ⟨by simpa [List.foldl_cons, hgr] using h1, by
      simpa [List.foldl_cons] using h2⟩

/-- C8: immediately after backward() returns, the root's gradient equals
exactly 1.0, whatever value it held before: the seed is an assignment, and
on an acyclic graph no node reachable from the root has the root among its
operands, so no local rule invoked by the traversal touches it. -/
theorem C8_root_gradient_seeded (P : Prims α) (G : Graph α) (r : Nat)
    (hWF : G.WF) (hr : r < G.size) : (Value.backward P G r).grad r = 1 := by
  have hG1 : (G.setGrad r 1).grad r = 1 := by
    simp [grad_setGrad _ _ _ _ hr]
  have hops : ∀ q, (G.setGrad r 1).op q = G.op q := op_setGrad G r 1
  have hl : ∀ j ∈ (topoOf G r).reverse, r ∉ G.ops j := by
    intro j hj
    have hjt : j ∈ topoOf G r := List.mem_reverse.mp hj
    have hreach : Reachable G r j := ((topoOf_props hWF r).2.2.2 j).1 hjt
    have hjr : j ≤ r := reach_le hWF hreach
    intro hmem
    have : r < j := ops_lt hWF hmem
    omega
  have h := backward_fold_inv P G r ((topoOf G r).reverse) hl
    (G.setGrad r 1) hops
  rw [Value.backward, h.1, hG1]

/-- Witness for C8: the diamond graph, root 3, with a dirty root gradient
first installed by an earlier backward pass. -/
theorem C8_root_gradient_seeded_witness :
    (Value.backward trivPrims demoG 3).WF ∧ 3 < (Value.backward trivPrims demoG 3).size ∧
    (Value.backward trivPrims (Value.backward trivPrims demoG 3) 3).grad 3 = 1 :=
  ⟨by decide, by decide,
    C8_root_gradient_seeded trivPrims (Value.backward trivPrims demoG 3) 3
      (by decide) (by decide)⟩

set_option maxHeartbeats 3200000 in
/-- C1: widths `[1, 1]`, identity activation (the single layer is final, so
no activation is applied), weight node 0 set to 2.0, bias node 1 set to
0.0, both gradients initially zero: `forward([3.0])` yields value 6.0, the
mean-squared-error loss against target 10.0 has value 16.0, and after
`backward()` on the loss node the weight gradient is -24.0 and the bias
gradient is -8.0. -/
theorem C1_end_to_end_scenario :
    c1Loss.1.grad 0 = 0 ∧ c1Loss.1.grad 1 = 0 ∧
    c1G2.data c1Out = 6 ∧ c1Loss.1.data c1Loss.2 = 16 ∧
    c1Final.grad 0 = -24 ∧ c1Final.grad 1 = -8 := by
  refine ⟨?_, ?_, ?_, ?_, ?_, ?_⟩ <;>
  norm_num [c1Final, c1Loss, c1G2, c1Out, c1Fwd, c1In, c1G1, c1Net,
    Value.backward, topoOf, buildTopo, nodeBackward, calculateLoss, MLP.forward,
    MLP.init, mkLayers, NeuronLayer.init, mkNeurons, Neuron.init, mkWeights,
    NeuronLayer.forward, Neuron.forward, neuronAcc, List.foldlM, Value.mk,
    Value.mul,
    Value.add, Value.mulNum, Value.relu, Graph.ops, Graph.op, Graph.data,
    Graph.grad, Graph.nodeAt, Graph.setGrad, Graph.setData, Graph.addGrad,
    Graph.setNode, Graph.push, Graph.empty, Op.operands, Graph.size]

/-- Counterexample for C4: in the chain `relu(relu(x))` with all gradients
zero, one backward pass leaves the leaf gradient at 1, but a second
backward pass without a reset leaves it at 3, not the claimed double 2;
the root gradient likewise stays at 1 rather than doubling to 2. -/
theorem C4_double_backward_counterexample :
    c4Once.grad 0 = 1 ∧ c4Twice.grad 0 = 3 ∧
    ¬c4Twice.grad 0 = 2 * c4Once.grad 0 ∧
    c4Once.grad 2 = 1 ∧ c4Twice.grad 2 = 1 ∧
    ¬c4Twice.grad 2 = 2 * c4Once.grad 2 := by
  refine ⟨?_, ?_, ?_, ?_, ?_, ?_⟩ <;>
  norm_num [c4Once, c4Twice, c4A, c4B, c4C, Value.backward, topoOf, buildTopo,
    nodeBackward, Graph.ops, Graph.op, Graph.data, Graph.grad, Graph.nodeAt,
    Graph.setGrad, Graph.addGrad, Graph.setNode, Graph.push, Value.mk,
    Value.relu, Graph.empty, Op.operands, Graph.size]

set_option maxHeartbeats 3200000 in
/-- C4 amended: a second backward() without a gradient reset accumulates on
top of the stored gradients rather than overwriting them, but it does not
double every gradient in general: the root is re-seeded to 1.0 each time,
and deeper nodes compound because second-pass rules read already inflated
consumer gradients.  Exact doubling of the non-root gradients does hold
when every non-root node is a direct operand of the root, shown here for
the two-leaf product and the two-leaf sum with arbitrary leaf data. -/
theorem C4_double_backward_amended (P : Prims α) (x y : α) :
    (Value.backward P (mulPair x y) 2).grad 0 = y ∧
    (Value.backward P (mulPair x y) 2).grad 1 = x ∧
    (Value.backward P (mulPair x y) 2).grad 2 = 1 ∧
    (Value.backward P (Value.backward P (mulPair x y) 2) 2).grad 0 = 2 * y ∧
    (Value.backward P (Value.backward P (mulPair x y) 2) 2).grad 1 = 2 * x ∧
    (Value.backward P (Value.backward P (mulPair x y) 2) 2).grad 2 = 1 ∧
    (Value.backward P (addPair x y) 2).grad 0 = 1 ∧
    (Value.backward P (addPair x y) 2).grad 1 = 1 ∧
    (Value.backward P (Value.backward P (addPair x y) 2) 2).grad 0 = 2 ∧
    (Value.backward P (Value.backward P (addPair x y) 2) 2).grad 1 = 2 ∧
    (Value.backward P (Value.backward P (addPair x y) 2) 2).grad 2 = 1 := by
  refine ⟨?_, ?_, ?_, ?_, ?_, ?_, ?_, ?_, ?_, ?_, ?_⟩ <;>
  · simp [Value.backward, topoOf, buildTopo, nodeBackward, Graph.ops, Graph.op,
      Graph.data, Graph.grad, Graph.nodeAt, Graph.setGrad, Graph.addGrad,
      Graph.setNode, Graph.push, mulPair, addPair, Value.mk, Value.mul,
      Value.add, Graph.empty, Op.operands, Graph.size]
    try ring

/-! The operation table of section 4.1. -/

theorem tanh_exp_form (x : ℝ) :
    (Real.exp (2 * x) - 1) / (Real.exp (2 * x) + 1) = Real.tanh x := by
  rw [Real.tanh_eq_sinh_div_cosh, Real.sinh_eq, Real.cosh_eq]
  have h1 : Real.exp x ≠ 0 := (Real.exp_pos x).ne'
  have h2 : Real.exp (2 * x) + 1 ≠ 0 := by positivity
  have h3 : Real.exp x + Real.exp (-x) ≠ 0 := by positivity
  field_simp
  rw [two_mul, Real.exp_add]
  rw [Real.exp_neg]
  field_simp

theorem grad_addGrad_one (H : Graph α) (a : Nat) (c : α) (ha : a < H.size)
    (q : Nat) :
    (H.addGrad a c).grad q = H.grad q + (if q = a then c else 0) := by
  rw [grad_addGrad _ _ _ _ ha]
  by_cases hqa : q = a
  · simp [hqa]
  · simp [hqa]

theorem grad_addGrad_two (H : Graph α) (a b : Nat) (c1 c2 : α)
    (ha : a < H.size) (hb : b < H.size) (q : Nat) :
    ((H.addGrad a c1).addGrad b c2).grad q =
      H.grad q + (if q = a then c1 else 0) + (if q = b then c2 else 0) := by
  rw [grad_addGrad_one _ _ _ (by rw [size_addGrad]; exact hb),
    grad_addGrad_one _ _ _ ha]

/-- C2: every operation of the section 4.1 table, over exact real
arithmetic with the genuine transcendental primitives (`pow` stays
abstract, as the model of `Math.pow` with a constant exponent): construction
records the table's forward value and operand identities, and the local
backward rule accumulates exactly the table's contributions into the
operands' gradients, touching no other field of any node. -/
theorem C2_operation_table (P : Prims ℝ) (hexp : P.exp = Real.exp)
    (hlog : P.log = Real.log) (hsin : P.sin = Real.sin)
    (hcos : P.cos = Real.cos) : OpTableSpec P := by
  obtain ⟨pe, pl, ps, pc, pp⟩ := P
  simp only at hexp hlog hsin hcos
  subst hexp hlog hsin hcos
  refine ⟨?_, ?_, ?_, ?_, ?_, ?_, ?_, ?_, ?_, ?_, ?_, ?_, ?_, ?_, ?_, ?_,
    ?_, ?_, ?_, ?_, ?_, ?_, ?_, ?_⟩
  · intro G a b
    exact ⟨rfl, by simp [Value.add, data_push], by simp [Value.add, op_push]⟩
  · intro H o a b hop ha hb
    have ho : o < H.size := op_ne_leaf_lt (by rw [hop]; simp)
    refine ⟨fun q => by simp [nodeBackward, hop, data_addGrad],
      fun q => by simp [nodeBackward, hop, op_addGrad], fun q => ?_⟩
    simp only [nodeBackward, hop]
    rw [grad_addGrad_two _ _ _ _ _ (lt_trans ha ho) (lt_trans hb ho)]
    by_cases hqa : q = a <;> by_cases hqb : q = b <;> simp [hqa, hqb] <;> ring
  · intro G a b
    exact ⟨rfl, by simp [Value.sub, data_push], by simp [Value.sub, op_push]⟩
  · intro H o a b hop ha hb
    have ho : o < H.size := op_ne_leaf_lt (by rw [hop]; simp)
    refine ⟨fun q => by simp [nodeBackward, hop, data_addGrad],
      fun q => by simp [nodeBackward, hop, op_addGrad], fun q => ?_⟩
    simp only [nodeBackward, hop]
    rw [grad_addGrad_two _ _ _ _ _ (lt_trans ha ho) (lt_trans hb ho)]
    by_cases hqa : q = a <;> by_cases hqb : q = b <;> simp [hqa, hqb] <;> ring
  · intro G a b
    exact ⟨rfl, by simp [Value.mul, data_push], by simp [Value.mul, op_push]⟩
  · intro H o a b hop ha hb
    have ho : o < H.size := op_ne_leaf_lt (by rw [hop]; simp)
    refine ⟨fun q => by simp [nodeBackward, hop, data_addGrad],
      fun q => by simp [nodeBackward, hop, op_addGrad], fun q => ?_⟩
    simp only [nodeBackward, hop]
    rw [grad_addGrad_two _ _ _ _ _ (lt_trans ha ho) (lt_trans hb ho)]
    by_cases hqa : q = a <;> by_cases hqb : q = b <;> simp [hqa, hqb] <;> ring
  · intro G a b
    exact ⟨rfl, by simp [Value.div, data_push], by simp [Value.div, op_push]⟩
  · intro H o a b hop ha hb
    have ho : o < H.size := op_ne_leaf_lt (by rw [hop]; simp)
    refine ⟨fun q => by simp [nodeBackward, hop, data_addGrad],
      fun q => by simp [nodeBackward, hop, op_addGrad], fun q => ?_⟩
    simp only [nodeBackward, hop]
    rw [grad_addGrad_two _ _ _ _ _ (lt_trans ha ho) (lt_trans hb ho)]
    by_cases hqa : q = a <;> by_cases hqb : q = b <;> simp [hqa, hqb] <;> ring
  · intro G a k
    exact ⟨rfl, by simp [Value.pow, data_push], by simp [Value.pow, op_push]⟩
  · intro H o a k hop ha
    have ho : o < H.size := op_ne_leaf_lt (by rw [hop]; simp)
    refine ⟨fun q => by simp [nodeBackward, hop, data_addGrad],
      fun q => by simp [nodeBackward, hop, op_addGrad], fun q => ?_⟩
    simp only [nodeBackward, hop]
    rw [grad_addGrad_one _ _ _ (lt_trans ha ho)]
    by_cases hqa : q = a <;> simp [hqa] <;> ring
  · intro G a hpos
    refine ⟨(G.push (Real.log (G.data a)) (Op.log a)).1, ?_, ?_, ?_⟩
    · simp [Value.log, not_le.mpr hpos, Graph.push, Graph.size]
    · simp [data_push]
    · simp [op_push]
  · intro H o a hop ha
    have ho : o < H.size := op_ne_leaf_lt (by rw [hop]; simp)
    refine ⟨fun q => by simp [nodeBackward, hop, data_addGrad],
      fun q => by simp [nodeBackward, hop, op_addGrad], fun q => ?_⟩
    simp only [nodeBackward, hop]
    rw [grad_addGrad_one _ _ _ (lt_trans ha ho)]
    by_cases hqa : q = a <;> simp [hqa] <;> ring
  · intro G a
    exact ⟨rfl, by simp [Value.exp, data_push], by simp [Value.exp, op_push]⟩
  · intro H o a hop ha
    have ho : o < H.size := op_ne_leaf_lt (by rw [hop]; simp)
    refine ⟨fun q => by simp [nodeBackward, hop, data_addGrad],
      fun q => by simp [nodeBackward, hop, op_addGrad], fun q => ?_⟩
    simp only [nodeBackward, hop]
    rw [grad_addGrad_one _ _ _ (lt_trans ha ho)]
    by_cases hqa : q = a <;> simp [hqa] <;> ring
  · intro G a
    exact ⟨rfl, by simp [Value.sin, data_push], by simp [Value.sin, op_push]⟩
  · intro H o a hop ha
    have ho : o < H.size := op_ne_leaf_lt (by rw [hop]; simp)
    refine ⟨fun q => by simp [nodeBackward, hop, data_addGrad],
      fun q => by simp [nodeBackward, hop, op_addGrad], fun q => ?_⟩
    simp only [nodeBackward, hop]
    rw [grad_addGrad_one _ _ _ (lt_trans ha ho)]
    by_cases hqa : q = a <;> simp [hqa] <;> ring
  · intro G a
    exact ⟨rfl, by simp [Value.cos, data_push], by simp [Value.cos, op_push]⟩
  · intro H o a hop ha
    have ho : o < H.size := op_ne_leaf_lt (by rw [hop]; simp)
    refine ⟨fun q => by simp [nodeBackward, hop, data_addGrad],
      fun q => by simp [nodeBackward, hop, op_addGrad], fun q => ?_⟩
    simp only [nodeBackward, hop]
    rw [grad_addGrad_one _ _ _ (lt_trans ha ho)]
    by_cases hqa : q = a <;> simp [hqa] <;> ring
  · intro G a
    exact ⟨rfl, by simp [Value.relu, data_push], by simp [Value.relu, op_push]⟩
  · intro H o a hop ha
    have ho : o < H.size := op_ne_leaf_lt (by rw [hop]; simp)
    refine ⟨fun q => by simp [nodeBackward, hop, data_addGrad],
      fun q => by simp [nodeBackward, hop, op_addGrad], fun q => ?_⟩
    simp only [nodeBackward, hop]
    rw [grad_addGrad_one _ _ _ (lt_trans ha ho)]
    by_cases hqa : q = a <;> simp [hqa] <;> ring
  · intro G a
    exact ⟨rfl, by simp [Value.sigmoid, data_push],
      by simp [Value.sigmoid, op_push]⟩
  · intro H o a hop ha
    have ho : o < H.size := op_ne_leaf_lt (by rw [hop]; simp)
    refine ⟨fun q => by simp [nodeBackward, hop, data_addGrad],
      fun q => by simp [nodeBackward, hop, op_addGrad], fun q => ?_⟩
    simp only [nodeBackward, hop]
    rw [grad_addGrad_one _ _ _ (lt_trans ha ho)]
    by_cases hqa : q = a <;> simp [hqa] <;> ring
  · intro G a
    refine ⟨rfl, ?_, by simp [Value.tanh, op_push]⟩
    have h := tanh_exp_form (G.data a)
    simp [Value.tanh, data_push, h]
  · intro H o a hop ha
    have ho : o < H.size := op_ne_leaf_lt (by rw [hop]; simp)
    refine ⟨fun q => by simp [nodeBackward, hop, data_addGrad],
      fun q => by simp [nodeBackward, hop, op_addGrad], fun q => ?_⟩
    simp only [nodeBackward, hop]
    rw [grad_addGrad_one _ _ _ (lt_trans ha ho)]
    by_cases hqa : q = a <;> simp [hqa] <;> ring

/-- C6: Value.log fails exactly when the operand's recorded value is not
positive; the failure (the `none` result, modelling the throw) creates no
node and returns no modified heap, while success appends exactly the one
log node; and every other operation of the table is total — `div` included,
for every divisor value including zero — always appending exactly one
node. -/
theorem C6_log_domain_error (P : Prims α) (G : Graph α) (a b : Nat)
    (ha : a < G.size) :
    (Value.log P G a = none ↔ G.data a ≤ 0) ∧
    (∀ s, Value.log P G a = some s →
      s.1.nodes = G.nodes ++ [⟨P.log (G.data a), 0, Op.log a⟩] ∧
      s.2 = G.size) ∧
    (Value.add G a b).1.size = G.size + 1 ∧
    (Value.sub G a b).1.size = G.size + 1 ∧
    (Value.mul G a b).1.size = G.size + 1 ∧
    (Value.div G a b).1.size = G.size + 1 ∧
    (∀ k : α, (Value.pow P G a k).1.size = G.size + 1) ∧
    (Value.exp P G a).1.size = G.size + 1 ∧
    (Value.sin P G a).1.size = G.size + 1 ∧
    (Value.cos P G a).1.size = G.size + 1 ∧
    (Value.relu G a).1.size = G.size + 1 ∧
    (Value.sigmoid P G a).1.size = G.size + 1 ∧
    (Value.tanh P G a).1.size = G.size + 1 := by
  refine ⟨?_, ?_, by simp [Value.add, push_size], by simp [Value.sub, push_size],
    by simp [Value.mul, push_size], by simp [Value.div, push_size],
    fun k => by simp [Value.pow, push_size], by simp [Value.exp, push_size],
    by simp [Value.sin, push_size], by simp [Value.cos, push_size],
    by simp [Value.relu, push_size], by simp [Value.sigmoid, push_size],
    by simp [Value.tanh, push_size]⟩
  · constructor
    · intro h
      by_contra hc
      simp [Value.log, hc] at h
    · intro h
      simp [Value.log, h]
  · intro s hs
    by_cases hc : G.data a ≤ 0
    · simp [Value.log, hc] at hs
    · simp [Value.log, hc] at hs
      refine ⟨?_, ?_⟩
      · rw [← hs]; rfl
      · rw [← hs]; rfl

/-- Witness for C6: node 0 of the diamond graph (value 2, positive) with
second operand node 1, under the dummy rational primitives. -/
theorem C6_log_domain_error_witness :
    0 < demoG.size ∧
    ((Value.log trivPrims demoG 0 = none ↔ demoG.data 0 ≤ 0) ∧
    (∀ s, Value.log trivPrims demoG 0 = some s →
      s.1.nodes = demoG.nodes ++
        [⟨trivPrims.log (demoG.data 0), 0, Op.log 0⟩] ∧
      s.2 = demoG.size) ∧
    (Value.add demoG 0 1).1.size = demoG.size + 1 ∧
    (Value.sub demoG 0 1).1.size = demoG.size + 1 ∧
    (Value.mul demoG 0 1).1.size = demoG.size + 1 ∧
    (Value.div demoG 0 1).1.size = demoG.size + 1 ∧
    (∀ k : ℚ, (Value.pow trivPrims demoG 0 k).1.size = demoG.size + 1) ∧
    (Value.exp trivPrims demoG 0).1.size = demoG.size + 1 ∧
    (Value.sin trivPrims demoG 0).1.size = demoG.size + 1 ∧
    (Value.cos trivPrims demoG 0).1.size = demoG.size + 1 ∧
    (Value.relu demoG 0).1.size = demoG.size + 1 ∧
    (Value.sigmoid trivPrims demoG 0).1.size = demoG.size + 1 ∧
    (Value.tanh trivPrims demoG 0).1.size = demoG.size + 1) :=
  ⟨by decide, C6_log_domain_error trivPrims demoG 0 1 (by decide)⟩

/-! Heap growth: graph construction only appends fresh zero-gradient
nodes, never touching an existing node. -/

theorem growth_refl (G : Graph α) : GrowthOk G G :=
  ⟨[], by simp, by intro n h; exact absurd h (List.not_mem_nil n)⟩

theorem growth_trans {G1 G2 G3 : Graph α} (h12 : GrowthOk G1 G2)
    (h23 : GrowthOk G2 G3) : GrowthOk G1 G3 := by
  obtain ⟨L1, hL1, hz1⟩ := h12
  obtain ⟨L2, hL2, hz2⟩ := h23
  refine ⟨L1 ++ L2, by rw [hL2, hL1, List.append_assoc], ?_⟩
  intro n hn
  rcases List.mem_append.mp hn with h | h
  · exact hz1 n h
  · exact hz2 n h

theorem growth_push (G : Graph α) (d : α) (op : Op α) :
    GrowthOk G (G.push d op).1 :=
  ⟨[⟨d, 0, op⟩], rfl, by intro n hn; simp at hn; rw [hn]⟩

theorem growth_size {G1 G2 : Graph α} (h : GrowthOk G1 G2) :
    G1.size ≤ G2.size := by
  obtain ⟨L, hL, _⟩ := h
  simp [Graph.size, hL]

theorem growth_nodeAt {G1 G2 : Graph α} (h : GrowthOk G1 G2) {q : Nat}
    (hq : q < G1.size) : G2.nodeAt q = G1.nodeAt q := by
  obtain ⟨L, hL, _⟩ := h
  show G2.nodes.getD q default = G1.nodes.getD q default
  rw [hL]
  exact List.getD_append _ _ _ _ hq

theorem growth_data {G1 G2 : Graph α} (h : GrowthOk G1 G2) {q : Nat}
    (hq : q < G1.size) : G2.data q = G1.data q := by
  simp [Graph.data, growth_nodeAt h hq]

theorem growth_grad_zero {G1 G2 : Graph α} (h : GrowthOk G1 G2) {q : Nat}
    (hq : G1.size ≤ q) : G2.grad q = 0 := by
  obtain ⟨L, hL, hz⟩ := h
  show (G2.nodes.getD q default).grad = 0
  rw [hL, List.getD_append_right _ _ _ _ hq]
  by_cases h2 : q - G1.nodes.length < L.length
  · rw [List.getD_eq_getElem _ _ h2]
    exact hz _ (List.getElem_mem h2)
  · rw [List.getD_eq_default _ _ (Nat.le_of_not_lt h2)]
    rfl

/-! The weighted-sum accumulation loop of `Neuron.forward`. -/

theorem neuronAcc_spec :
    ∀ (l : List (Nat × Nat)) (G : Graph α) (acc : Nat),
      acc < G.size → (∀ wx ∈ l, wx.1 < G.size ∧ wx.2 < G.size) →
      GrowthOk G (neuronAcc G acc l).1 ∧
      (neuronAcc G acc l).2 < (neuronAcc G acc l).1.size ∧
      (neuronAcc G acc l).1.data (neuronAcc G acc l).2 =
        G.data acc + wsum G l ∧
      (l ≠ [] → G.size ≤ (neuronAcc G acc l).2) ∧
      (l = [] → neuronAcc G acc l = (G, acc)) := by
  intro l
  induction l with
  | nil =>
    intro G acc hacc _
    refine ⟨growth_refl G, hacc, by simp [neuronAcc, wsum], by simp,
      fun _ => rfl⟩
  | cons wx l ih =>
    intro G acc hacc hl
    obtain ⟨hw, hx⟩ := hl wx (List.mem_cons_self _ _)
    have hl2 : ∀ p ∈ l, p.1 < G.size ∧ p.2 < G.size :=
      fun p hp => hl p (List.mem_cons_of_mem _ hp)
    set G2 := (Value.mul G wx.1 wx.2).1 with hG2
    set m := (Value.mul G wx.1 wx.2).2 with hm
    set G3 := (Value.add G2 acc m).1 with hG3
    set acc2 := (Value.add G2 acc m).2 with hacc2
    have hstep : neuronAcc G acc (wx :: l) = neuronAcc G3 acc2 l := rfl
    have hG2size : G2.size = G.size + 1 := push_size _ _ _
    have hG3size : G3.size = G.size + 2 := by
      rw [hG3, Value.add, push_size, hG2size]
    have hacc2val : acc2 = G.size + 1 := by
      rw [hacc2, Value.add, push_idx, hG2size]
    have hacc2lt : acc2 < G3.size := by omega
    have hgrow23 : GrowthOk G G3 :=
      growth_trans (growth_push _ _ _) (growth_push _ _ _)
    have hl3 : ∀ p ∈ l, p.1 < G3.size ∧ p.2 < G3.size := by
      intro p hp
      obtain ⟨h1, h2⟩ := hl2 p hp
      omega
    have hdata3 : G3.data acc2 = G.data acc + G.data wx.1 * G.data wx.2 := by
      have h1 : G2.data acc = G.data acc := growth_data (growth_push _ _ _) hacc
      have h2 : G2.data m = G.data wx.1 * G.data wx.2 := by
        rw [hm, hG2]
        show (Value.mul G wx.1 wx.2).1.data (G.push _ _).2 = _
        rw [Value.mul, push_idx, data_push, if_pos rfl]
      rw [hacc2, hG3]
      show (Value.add G2 acc m).1.data (G2.push _ _).2 = _
      rw [Value.add, push_idx, data_push, if_pos rfl, h1, h2]
    have hwsum : wsum G3 l = wsum G l := by
      unfold wsum
      congr 1
      apply List.map_congr_left
      intro p hp
      obtain ⟨h1, h2⟩ := hl2 p hp
      rw [growth_data hgrow23 h1, growth_data hgrow23 h2]
    obtain ⟨ih1, ih2, ih3, ih4, ih5⟩ := ih G3 acc2 hacc2lt hl3
    rw [hstep]
    refine ⟨growth_trans hgrow23 ih1, ih2, ?_, ?_, ?_⟩
    · rw [ih3, hdata3, hwsum]
      simp [wsum]
      ring
    · intro _
      by_cases hne : l = []
      · subst hne
        rw [ih5 rfl]
        omega
      · have h4 := ih4 hne
        omega
    · intro h
      exact absurd h (List.cons_ne_nil _ _)

end EasyNN

namespace EasyNN

variable {α : Type} [LinearOrderedField α]

/-! Neuron-level lemmas. -/

theorem neuronAcc_growth :
    ∀ (l : List (Nat × Nat)) (G : Graph α) (acc : Nat),
      GrowthOk G (neuronAcc G acc l).1 ∧
      (l ≠ [] → G.size ≤ (neuronAcc G acc l).2 ∧
        (neuronAcc G acc l).2 < (neuronAcc G acc l).1.size) ∧
      (l = [] → neuronAcc G acc l = (G, acc)) := by
  intro l
  induction l with
  | nil => intro G acc; exact ⟨growth_refl G, by simp, fun _ => rfl⟩
  | cons wx l ih =>
    intro G acc
    set G2 := (Value.mul G wx.1 wx.2).1 with hG2
    set m := (Value.mul G wx.1 wx.2).2 with hm
    set G3 := (Value.add G2 acc m).1 with hG3
    set acc2 := (Value.add G2 acc m).2 with hacc2
    have hstep : neuronAcc G acc (wx :: l) = neuronAcc G3 acc2 l := rfl
    have hG2size : G2.size = G.size + 1 := push_size _ _ _
    have hG3size : G3.size = G.size + 2 := by
      rw [hG3, Value.add, push_size, hG2size]
    have hacc2val : acc2 = G.size + 1 := by
      rw [hacc2, Value.add, push_idx, hG2size]
    have hgrow : GrowthOk G G3 :=
      growth_trans (growth_push _ _ _) (growth_push _ _ _)
    obtain ⟨ih1, ih2, ih3⟩ := ih G3 acc2
    rw [hstep]
    refine ⟨growth_trans hgrow ih1, fun _ => ?_, fun h =>
      absurd h (List.cons_ne_nil _ _)⟩
    by_cases hne : l = []
    · subst hne
      rw [ih3 rfl]
      constructor
      · simp; omega
      · simp; omega
    · obtain ⟨h1, h2⟩ := ih2 hne
      exact ⟨by omega, h2⟩

theorem neuron_forward_fresh (P : Prims α) (G : Graph α) (n : Neuron)
    (x : List Nat) (hlen : x.length = n.w.length) :
    ∃ s : Graph α × Nat, Neuron.forward P G n x = .ok s ∧
      GrowthOk G s.1 ∧
      (0 < n.w.length → G.size ≤ s.2 ∧ s.2 < s.1.size) := by
  obtain ⟨g1, g2, g3⟩ := neuronAcc_growth (n.w.zip x) G n.b
  have hzip : n.w.length = 0 ∨ n.w.zip x ≠ [] := by
    by_cases h : n.w.length = 0
    · exact Or.inl h
    · refine Or.inr ?_
      intro hz
      have := List.length_zip n.w x
      rw [hz] at this
      simp [← hlen] at this
      omega
  set s0 := neuronAcc G n.b (n.w.zip x) with hs0
  have hfresh0 : 0 < n.w.length → G.size ≤ s0.2 ∧ s0.2 < s0.1.size := by
    intro hpos
    rcases hzip with h | h
    · omega
    · exact g2 h
  unfold Neuron.forward
  rw [if_pos hlen]
  cases hnl : n.nonlin
  · exact ⟨s0, rfl, g1, hfresh0⟩
  · cases hact : n.activation
    · exact ⟨s0, rfl, g1, hfresh0⟩
    · refine ⟨Value.relu s0.1 s0.2, rfl,
        growth_trans g1 (growth_push _ _ _), fun _ => ?_⟩
      rw [Value.relu, push_idx, push_size]
      have := growth_size g1
      omega
    · refine ⟨Value.sigmoid P s0.1 s0.2, rfl,
        growth_trans g1 (growth_push _ _ _), fun _ => ?_⟩
      rw [Value.sigmoid, push_idx, push_size]
      have := growth_size g1
      omega
    · refine ⟨Value.tanh P s0.1 s0.2, rfl,
        growth_trans g1 (growth_push _ _ _), fun _ => ?_⟩
      rw [Value.tanh, push_idx, push_size]
      have := growth_size g1
      omega

theorem neuron_forward_value (P : Prims α) (G : Graph α) (n : Neuron)
    (x : List Nat) (hlen : x.length = n.w.length) (hb : n.b < G.size)
    (hw : ∀ w ∈ n.w, w < G.size) (hx : ∀ xi ∈ x, xi < G.size) :
    ∃ s : Graph α × Nat, Neuron.forward P G n x = .ok s ∧
      (n.nonlin = false →
        s.1.data s.2 = G.data n.b + wsum G (n.w.zip x)) ∧
      (n.nonlin = true → n.activation = ActivationType.linear →
        s.1.data s.2 = G.data n.b + wsum G (n.w.zip x)) ∧
      (n.nonlin = true → n.activation = ActivationType.relu →
        s.1.data s.2 = max 0 (G.data n.b + wsum G (n.w.zip x))) ∧
      (n.nonlin = true → n.activation = ActivationType.sigmoid →
        s.1.data s.2 = 1 / (1 + P.exp (-(G.data n.b + wsum G (n.w.zip x))))) ∧
      (n.nonlin = true → n.activation = ActivationType.tanh →
        s.1.data s.2 = (P.exp (2 * (G.data n.b + wsum G (n.w.zip x))) - 1) /
          (P.exp (2 * (G.data n.b + wsum G (n.w.zip x))) + 1)) := by
  have hpairs : ∀ wx ∈ n.w.zip x, wx.1 < G.size ∧ wx.2 < G.size := by
    intro wx hwx
    obtain ⟨h1, h2⟩ := List.of_mem_zip hwx
    exact ⟨hw _ h1, hx _ h2⟩
  obtain ⟨g1, g2, g3, _, _⟩ := neuronAcc_spec (n.w.zip x) G n.b hb hpairs
  set s0 := neuronAcc G n.b (n.w.zip x) with hs0
  unfold Neuron.forward
  rw [if_pos hlen]
  cases hnl : n.nonlin
  · exact ⟨s0, rfl, fun _ => g3, by simp, by simp, by simp, by simp⟩
  · cases hact : n.activation
    · exact ⟨s0, rfl, by simp, fun _ _ => g3, by simp [hact], by simp [hact],
        by simp [hact]⟩
    · refine ⟨Value.relu s0.1 s0.2, rfl, by simp, by simp [hact],
        fun _ _ => ?_, by simp [hact], by simp [hact]⟩
      rw [Value.relu, push_idx, data_push, if_pos rfl, g3]
    · refine ⟨Value.sigmoid P s0.1 s0.2, rfl, by simp, by simp [hact],
        by simp [hact], fun _ _ => ?_, by simp [hact]⟩
      rw [Value.sigmoid, push_idx, data_push, if_pos rfl, g3]
    · refine ⟨Value.tanh P s0.1 s0.2, rfl, by simp, by simp [hact],
        by simp [hact], by simp [hact], fun _ _ => ?_⟩
      rw [Value.tanh, push_idx, data_push, if_pos rfl, g3]

theorem neuron_forward_err (P : Prims α) (G : Graph α) (n : Neuron)
    (x : List Nat) :
    (x.length ≠ n.w.length →
      Neuron.forward P G n x = .error (.dim x.length n.w.length)) ∧
    (x.length = n.w.length → ∃ s, Neuron.forward P G n x = .ok s) := by
  constructor
  · intro h
    unfold Neuron.forward
    rw [if_neg h]
  · intro h
    obtain ⟨s, hs, _⟩ := neuron_forward_fresh P G n x h
    exact ⟨s, hs⟩

/-! Constructor shape lemmas. -/

theorem mkWeights_len (rand : Nat → α) :
    ∀ (nin : Nat) (G : Graph α) (k : Nat),
      (mkWeights rand G k nin).2.2.length = nin := by
  intro nin
  induction nin with
  | zero => intro G k; rfl
  | succ n ih => intro G k; simp [mkWeights, ih]

theorem neuron_init_spec (G : Graph α) (rand : Nat → α) (k nin : Nat)
    (activation : ActivationType) (nonlin : Bool) :
    (Neuron.init G rand k nin activation nonlin).2.2.w.length = nin ∧
    (Neuron.init G rand k nin activation nonlin).2.2.nonlin = nonlin ∧
    (Neuron.init G rand k nin activation nonlin).2.2.activation = activation := by
  exact ⟨mkWeights_len rand nin G k, rfl, rfl⟩

theorem mkNeurons_spec (rand : Nat → α) (nin : Nat)
    (activation : ActivationType) (nonlin : Bool) :
    ∀ (nout : Nat) (G : Graph α) (k : Nat),
      (mkNeurons rand nin activation nonlin G k nout).2.2.length = nout ∧
      ∀ n ∈ (mkNeurons rand nin activation nonlin G k nout).2.2,
        n.w.length = nin ∧ n.nonlin = nonlin ∧ n.activation = activation := by
  intro nout
  induction nout with
  | zero =>
    intro G k
    exact ⟨rfl, by intro n hn; exact absurd hn (List.not_mem_nil n)⟩
  | succ m ih =>
    intro G k
    obtain ⟨ih1, ih2⟩ := ih (Neuron.init G rand k nin activation nonlin).1
      (Neuron.init G rand k nin activation nonlin).2.1
    refine ⟨by simp [mkNeurons, ih1], ?_⟩
    intro n hn
    simp only [mkNeurons, List.mem_cons] at hn
    rcases hn with h | h
    · subst h
      exact ⟨(neuron_init_spec G rand k nin activation nonlin).1,
        (neuron_init_spec G rand k nin activation nonlin).2.1,
        (neuron_init_spec G rand k nin activation nonlin).2.2⟩
    · exact ih2 n h

theorem layer_init_spec (G : Graph α) (rand : Nat → α) (k nin nout : Nat)
    (activation : ActivationType) (nonlin : Bool) :
    (NeuronLayer.init G rand k nin nout activation nonlin).2.2.neurons.length
      = nout ∧
    ∀ n ∈ (NeuronLayer.init G rand k nin nout activation nonlin).2.2.neurons,
      n.w.length = nin ∧ n.nonlin = nonlin ∧ n.activation = activation :=
  mkNeurons_spec rand nin activation nonlin nout G k

theorem mkLayers_arity (rand : Nat → α) :
    ∀ (nouts : List Nat) (acts : List ActivationType) (G : Graph α)
      (k nin : Nat),
      arityFits nin (mkLayers rand G k nin nouts acts).2.2 = true := by
  intro nouts
  induction nouts with
  | nil => intro acts G k nin; rfl
  | cons nout rest ih =>
    intro acts G k nin
    simp only [mkLayers, arityFits]
    rw [Bool.and_eq_true]
    constructor
    · rw [List.all_eq_true]
      intro n hn
      obtain ⟨h1, _, _⟩ := (layer_init_spec G rand k nin nout
        (acts.headD .relu) (rest ≠ [])).2 n hn
      simp [h1]
    · rw [(layer_init_spec G rand k nin nout (acts.headD .relu)
        (rest ≠ [])).1]
      exact ih acts.tail _ _ nout

theorem mkLayers_arityPos (rand : Nat → α) :
    ∀ (nouts : List Nat) (acts : List ActivationType) (G : Graph α)
      (k nin : Nat), 0 < nin → (∀ w ∈ nouts, 0 < w) →
      arityPos nin (mkLayers rand G k nin nouts acts).2.2 = true := by
  intro nouts
  induction nouts with
  | nil => intro acts G k nin _ _; rfl
  | cons nout rest ih =>
    intro acts G k nin hnin hall
    simp only [mkLayers, arityPos]
    rw [Bool.and_eq_true, Bool.and_eq_true]
    refine ⟨⟨by simpa using hnin, ?_⟩, ?_⟩
    · rw [List.all_eq_true]
      intro n hn
      obtain ⟨h1, _, _⟩ := (layer_init_spec G rand k nin nout
        (acts.headD .relu) (rest ≠ [])).2 n hn
      simp [h1]
    · rw [(layer_init_spec G rand k nin nout (acts.headD .relu)
        (rest ≠ [])).1]
      exact ih acts.tail _ _ nout (hall nout (List.mem_cons_self _ _))
        (fun w hw => hall w (List.mem_cons_of_mem _ hw))

theorem getLast?_cons_ne {β : Type} (x : β) (M : List β) (h : M ≠ []) :
    (x :: M).getLast? = M.getLast? := by
  cases M with
  | nil => exact absurd rfl h
  | cons a as => exact List.getLast?_cons_cons

theorem mkLayers_last_aux (rand : Nat → α) :
    ∀ (nouts : List Nat) (acts : List ActivationType) (G : Graph α)
      (k nin : Nat), nouts ≠ [] →
      ∃ l, (mkLayers rand G k nin nouts acts).2.2.getLast? = some l ∧
        ∀ n ∈ l.neurons, n.nonlin = false := by
  intro nouts
  induction nouts with
  | nil => intro acts G k nin h; exact absurd rfl h
  | cons nout rest ih =>
    intro acts G k nin _
    cases rest with
    | nil =>
      refine ⟨_, rfl, ?_⟩
      intro n hn
      have h4 := (layer_init_spec G rand k nin nout (acts.headD .relu)
        (decide (([] : List Nat) ≠ []))).2 n hn
      simpa using h4.2.1
    | cons a as =>
      obtain ⟨l, hl, hprop⟩ := ih acts.tail
        (NeuronLayer.init G rand k nin nout (acts.headD .relu)
          (decide ((a :: as) ≠ []))).1
        (NeuronLayer.init G rand k nin nout (acts.headD .relu)
          (decide ((a :: as) ≠ []))).2.1 nout (List.cons_ne_nil a as)
      refine ⟨l, ?_, hprop⟩
      have hM : (mkLayers rand
          (NeuronLayer.init G rand k nin nout (acts.headD .relu)
            (decide ((a :: as) ≠ []))).1
          (NeuronLayer.init G rand k nin nout (acts.headD .relu)
            (decide ((a :: as) ≠ []))).2.1 nout (a :: as) acts.tail).2.2 ≠ [] := by
        simp only [mkLayers]
        exact List.cons_ne_nil _ _
      calc (mkLayers rand G k nin (nout :: a :: as) acts).2.2.getLast?
          = (mkLayers rand
              (NeuronLayer.init G rand k nin nout (acts.headD .relu)
                (decide ((a :: as) ≠ []))).1
              (NeuronLayer.init G rand k nin nout (acts.headD .relu)
                (decide ((a :: as) ≠ []))).2.1 nout (a :: as)
              acts.tail).2.2.getLast? := getLast?_cons_ne _ _ hM
        _ = some l := hl

theorem mkLayers_last (rand : Nat → α) :
    ∀ (nouts : List Nat) (acts : List ActivationType) (G : Graph α)
      (k nin : Nat) (l : NeuronLayer),
      (mkLayers rand G k nin nouts acts).2.2.getLast? = some l →
      ∀ n ∈ l.neurons, n.nonlin = false := by
  intro nouts acts G k nin l h
  by_cases hne : nouts = []
  · subst hne
    simp [mkLayers] at h
  · obtain ⟨l2, hl2, hprop⟩ := mkLayers_last_aux rand nouts acts G k nin hne
    rw [hl2] at h
    have := Option.some.inj h
    subst this
    exact hprop

/-! Layer- and network-level forward lemmas. -/

theorem layer_fold_ok (P : Prims α) (x : List Nat) :
    ∀ (neurons : List Neuron) (G : Graph α) (outs : List Nat),
      (∀ n ∈ neurons, x.length = n.w.length) →
      ∃ s : Graph α × List Nat,
        neurons.foldlM (fun (s : Graph α × List Nat) n =>
          (match Neuron.forward P s.1 n x with
           | .ok g => .ok (g.1, s.2 ++ [g.2])
           | .error e => .error e : Except Err (Graph α × List Nat)))
          (G, outs) = .ok s ∧
        GrowthOk G s.1 ∧
        s.2.length = outs.length + neurons.length ∧
        ∃ δ, s.2 = outs ++ δ ∧
          (0 < x.length → ∀ o ∈ δ, G.size ≤ o ∧ o < s.1.size) := by
  intro neurons
  induction neurons with
  | nil =>
    intro G outs _
    refine ⟨(G, outs), rfl, growth_refl G, by simp, [], by simp, by simp⟩
  | cons n ns ih =>
    intro G outs hlen
    obtain ⟨s1, hs1, hg1, hf1⟩ :=
      neuron_forward_fresh P G n x (hlen n (List.mem_cons_self _ _))
    obtain ⟨s2, hs2, hg2, hlen2, δ, hδ, hfresh2⟩ :=
      ih s1.1 (outs ++ [s1.2]) (fun m hm => hlen m (List.mem_cons_of_mem _ hm))
    refine ⟨s2, ?_, growth_trans hg1 hg2, by simp [hlen2]; omega,
      [s1.2] ++ δ, by rw [hδ, List.append_assoc], ?_⟩
    · rw [List.foldlM_cons, hs1]
      simpa using hs2
    · intro hx o ho
      have hwpos : 0 < n.w.length := by
        rw [← hlen n (List.mem_cons_self _ _)]
        exact hx
      rcases List.mem_append.mp ho with h | h
      · have : o = s1.2 := by simpa using h
        subst this
        obtain ⟨hle, hlt⟩ := hf1 hwpos
        exact ⟨hle, lt_of_lt_of_le hlt (growth_size hg2)⟩
      · obtain ⟨hle, hlt⟩ := hfresh2 hx o h
        exact ⟨le_trans (growth_size hg1) hle, hlt⟩

theorem layer_forward_ok (P : Prims α) (G : Graph α) (l : NeuronLayer)
    (x : List Nat) (hlen : ∀ n ∈ l.neurons, x.length = n.w.length) :
    ∃ s : Graph α × List Nat, NeuronLayer.forward P G l x = .ok s ∧
      GrowthOk G s.1 ∧ s.2.length = l.neurons.length ∧
      (0 < x.length → ∀ o ∈ s.2, G.size ≤ o ∧ o < s.1.size) := by
  obtain ⟨s, hs, hg, hl2, δ, hδ, hf⟩ := layer_fold_ok P x l.neurons G [] hlen
  refine ⟨s, hs, hg, by simpa using hl2, ?_⟩
  intro hx o ho
  rw [hδ] at ho
  exact hf hx o (by simpa using ho)

theorem layers_fold_ok (P : Prims α) :
    ∀ (layers : List NeuronLayer) (G : Graph α) (x : List Nat),
      arityFits x.length layers = true →
      ∃ s : Graph α × List Nat,
        layers.foldlM (fun (s : Graph α × List Nat) l =>
          NeuronLayer.forward P s.1 l s.2) (G, x) = .ok s := by
  intro layers
  induction layers with
  | nil => intro G x _; exact ⟨(G, x), rfl⟩
  | cons l ls ih =>
    intro G x hfit
    simp only [arityFits, Bool.and_eq_true, List.all_eq_true] at hfit
    obtain ⟨hall, hrest⟩ := hfit
    have hlen : ∀ n ∈ l.neurons, x.length = n.w.length := by
      intro n hn
      have := hall n hn
      simp at this
      omega
    obtain ⟨s1, hs1, _, hlen1, _⟩ := layer_forward_ok P G l x hlen
    obtain ⟨s2, hs2⟩ := ih s1.1 s1.2 (by rw [hlen1]; exact hrest)
    refine ⟨s2, ?_⟩
    rw [List.foldlM_cons, hs1]
    simpa using hs2

theorem acts_fold_ok_light (P : Prims α) :
    ∀ (layers : List NeuronLayer) (G : Graph α) (rows : List (List Nat))
      (cur : List Nat), arityFits cur.length layers = true →
      ∃ s : Graph α × List (List Nat) × List Nat,
        layers.foldlM (fun (s : Graph α × List (List Nat) × List Nat) l =>
          (match NeuronLayer.forward P s.1 l s.2.2 with
           | .ok g => .ok (g.1, s.2.1 ++ [g.2], g.2)
           | .error e => .error e :
           Except Err (Graph α × List (List Nat) × List Nat)))
          (G, rows, cur) = .ok s := by
  intro layers
  induction layers with
  | nil => intro G rows cur _; exact ⟨(G, rows, cur), rfl⟩
  | cons l ls ih =>
    intro G rows cur hfit
    simp only [arityFits, Bool.and_eq_true, List.all_eq_true] at hfit
    obtain ⟨hall, hrest⟩ := hfit
    have hlen : ∀ n ∈ l.neurons, cur.length = n.w.length := by
      intro n hn
      have := hall n hn
      simp at this
      omega
    obtain ⟨s1, hs1, _, hlen1, _⟩ := layer_forward_ok P G l cur hlen
    obtain ⟨s2, hs2⟩ := ih s1.1 (rows ++ [s1.2]) s1.2 (by rw [hlen1]; exact hrest)
    refine ⟨s2, ?_⟩
    rw [List.foldlM_cons, hs1]
    simpa using hs2

theorem acts_fold_ok (P : Prims α) :
    ∀ (layers : List NeuronLayer) (G : Graph α) (rows : List (List Nat))
      (cur : List Nat), arityPos cur.length layers = true →
      ∃ s : Graph α × List (List Nat) × List Nat,
        layers.foldlM (fun (s : Graph α × List (List Nat) × List Nat) l =>
          (match NeuronLayer.forward P s.1 l s.2.2 with
           | .ok g => .ok (g.1, s.2.1 ++ [g.2], g.2)
           | .error e => .error e :
           Except Err (Graph α × List (List Nat) × List Nat)))
          (G, rows, cur) = .ok s ∧
        GrowthOk G s.1 ∧
        s.2.1.length = rows.length + layers.length ∧
        ∃ δ, s.2.1 = rows ++ δ ∧
          ∀ row ∈ δ, ∀ o ∈ row, G.size ≤ o := by
  intro layers
  induction layers with
  | nil =>
    intro G rows cur _
    refine ⟨(G, rows, cur), rfl, growth_refl G, by simp, [], by simp,
      by simp⟩
  | cons l ls ih =>
    intro G rows cur hfit
    simp only [arityPos, Bool.and_eq_true, List.all_eq_true] at hfit
    obtain ⟨⟨hpos, hall⟩, hrest⟩ := hfit
    have hlen : ∀ n ∈ l.neurons, cur.length = n.w.length := by
      intro n hn
      have := hall n hn
      simp at this
      omega
    have hcurpos : 0 < cur.length := by simpa using hpos
    obtain ⟨s1, hs1, hg1, hlen1, hf1⟩ := layer_forward_ok P G l cur hlen
    obtain ⟨s2, hs2, hg2, hlen2, δ, hδ, hf2⟩ :=
      ih s1.1 (rows ++ [s1.2]) s1.2 (by rw [hlen1]; exact hrest)
    refine ⟨s2, ?_, growth_trans hg1 hg2, by simp [hlen2]; omega,
      [s1.2] ++ δ, by rw [hδ, List.append_assoc], ?_⟩
    · rw [List.foldlM_cons, hs1]
      simpa using hs2
    · intro row hrow o ho
      rcases List.mem_append.mp hrow with h | h
      · have : row = s1.2 := by simpa using h
        subst this
        exact (hf1 hcurpos o ho).1
      · exact le_trans (growth_size hg1) (hf2 row h o ho)

/-- Witness for C2: the primitive record built from the genuine real
functions satisfies the hypotheses, and the table specification follows by
applying the theorem to it. -/
theorem C2_operation_table_witness :
    ((⟨Real.exp, Real.log, Real.sin, Real.cos, fun a _ => a⟩ : Prims ℝ).exp
        = Real.exp ∧
      (⟨Real.exp, Real.log, Real.sin, Real.cos, fun a _ => a⟩ : Prims ℝ).log
        = Real.log ∧
      (⟨Real.exp, Real.log, Real.sin, Real.cos, fun a _ => a⟩ : Prims ℝ).sin
        = Real.sin ∧
      (⟨Real.exp, Real.log, Real.sin, Real.cos, fun a _ => a⟩ : Prims ℝ).cos
        = Real.cos) ∧
    OpTableSpec ⟨Real.exp, Real.log, Real.sin, Real.cos, fun a _ => a⟩ :=
  ⟨⟨rfl, rfl, rfl, rfl⟩,
    C2_operation_table ⟨Real.exp, Real.log, Real.sin, Real.cos, fun a _ => a⟩
      rfl rfl rfl rfl⟩

/-- C5 (supporting the code-bug verdict): a configuration whose hidden
layer requests `sigmoid` produces, through `createNetwork`, a network whose
every neuron carries the default `relu` tag — the per-layer activation
configuration is dropped — and the hidden layer's output node on a fresh
input is a relu node, not a sigmoid node. -/
theorem C5_createNetwork_ignores_activations :
    c5Cfg.map (fun l => l.activation) =
      [ActivationType.linear, ActivationType.sigmoid, ActivationType.linear] ∧
    c5Tags = [[ActivationType.relu], [ActivationType.relu]] ∧
    c5Hidden = Op.relu 12 ∧
    ∀ a : Nat, c5Hidden ≠ Op.sigmoid a := by
  refine ⟨by decide, by decide, by decide, ?_⟩
  intro a h
  rw [show c5Hidden = Op.relu 12 by decide] at h
  exact Op.noConfusion h

/-- C7: Neuron.forward and MLP.forward fail exactly when the input length
differs from, respectively, the weight count and the network's input size;
the error carries both the given and the expected length, and nothing else
is produced or modified (the model returns the bare error before building
any node or storing any input). -/
theorem C7_dimension_mismatch (P : Prims α) :
    (∀ (G : Graph α) (n : Neuron) (x : List Nat),
      (x.length ≠ n.w.length →
        Neuron.forward P G n x = .error (.dim x.length n.w.length)) ∧
      (x.length = n.w.length → ∃ s, Neuron.forward P G n x = .ok s)) ∧
    (∀ (nin : Nat) (nouts : List Nat) (acts : List ActivationType)
      (rand : Nat → α) (G0 G : Graph α) (x : List Nat),
      (MLP.init nin nouts acts rand G0).2.inputSize = nin ∧
      (x.length ≠ nin →
        MLP.forward P G (MLP.init nin nouts acts rand G0).2 x =
          .error (.dim x.length nin)) ∧
      (x.length = nin →
        ∃ s, MLP.forward P G (MLP.init nin nouts acts rand G0).2 x =
          .ok s)) := by
  refine ⟨fun G n x => neuron_forward_err P G n x, ?_⟩
  intro nin nouts acts rand G0 G x
  have hsize : (MLP.init nin nouts acts rand G0).2.inputSize = nin := rfl
  refine ⟨rfl, ?_, ?_⟩
  · intro h
    unfold MLP.forward
    rw [hsize, if_neg h]
  · intro h
    obtain ⟨s1, hs1⟩ := layers_fold_ok P
      (MLP.init nin nouts acts rand G0).2.layers G x
      (by rw [h]; exact mkLayers_arity rand nouts acts G0 0 nin)
    refine ⟨(s1.1, { (MLP.init nin nouts acts rand G0).2 with
      inputLayer := some x }, s1.2), ?_⟩
    unfold MLP.forward
    rw [hsize, if_pos h, hs1]
    rfl

/-- Witness for C7: a `[1, 1]` network rejects a two-element input with an
error naming 2 and 1, and accepts a one-element input. -/
theorem C7_dimension_mismatch_witness :
    (([0, 1] : List Nat).length ≠ 1 ∧
      MLP.forward trivPrims c1G1 (MLP.init 1 [1] [] (fun _ => (0 : ℚ))
        (Graph.empty ℚ)).2 [0, 1] = .error (.dim 2 1)) ∧
    (([2] : List Nat).length = 1 ∧
      ∃ s, MLP.forward trivPrims c1G1 (MLP.init 1 [1] [] (fun _ => (0 : ℚ))
        (Graph.empty ℚ)).2 [2] = .ok s) :=
  ⟨⟨by decide, ((C7_dimension_mismatch trivPrims).2 1 [1] []
      (fun _ => (0 : ℚ)) (Graph.empty ℚ) c1G1 [0, 1]).2.1 (by decide)⟩,
   ⟨rfl, ((C7_dimension_mismatch trivPrims).2 1 [1] []
      (fun _ => (0 : ℚ)) (Graph.empty ℚ) c1G1 [2]).2.2 rfl⟩⟩

/-- Counterexample for C9: the zero-input-width network `MLP(0, [1])`
stores the empty input, and after a backward pass on its output — which is
the bias node itself, node 0 — getActivations succeeds but returns that
very same bias node as the non-input row, allocating nothing (the heap
still has exactly one node) and showing gradient 1, not 0. -/
theorem C9_fresh_rows_counterexample :
    c9M.inputLayer = some [] ∧
    MLP.getActivations trivPrims c9B c9M = .ok (c9B, [[], [0]]) ∧
    c9B.grad 0 = 1 ∧ c9B.size = 1 := by decide

/-- C9 amended: getActivations fails with the state error exactly when no
forward pass has stored an input (a freshly constructed network stores
none, a successful forward stores its input); on success it returns the
stored input as the first row followed by one freshly recomputed row per
layer (succeeding whenever the stored input fits the layer arities, as a
stored input always does); and provided every width along the stack is
positive — as in any
constructor-built network with positive widths — the recomputed rows are
newly allocated nodes whose gradients are zero.  (A zero-arity neuron
instead returns its bias node itself, which is shared with the previous
forward pass and keeps its accumulated gradient.) -/
theorem C9_get_activations_recompute (P : Prims α) :
    (∀ (G : Graph α) (m : MLP), m.inputLayer = none →
      MLP.getActivations P G m = .error .state) ∧
    (∀ (nin : Nat) (nouts : List Nat) (acts : List ActivationType)
      (rand : Nat → α) (G0 : Graph α),
      (MLP.init nin nouts acts rand G0).2.inputLayer = none) ∧
    (∀ (G : Graph α) (m : MLP) (x : List Nat) s,
      MLP.forward P G m x = .ok s → s.2.1.inputLayer = some x) ∧
    (∀ (G : Graph α) (m : MLP) (inp : List Nat),
      m.inputLayer = some inp → arityFits inp.length m.layers = true →
      ∃ s : Graph α × List (List Nat), MLP.getActivations P G m = .ok s) ∧
    (∀ (nin : Nat) (nouts : List Nat) (acts : List ActivationType)
      (rand : Nat → α) (G0 : Graph α), 0 < nin → (∀ w ∈ nouts, 0 < w) →
      arityPos nin (MLP.init nin nouts acts rand G0).2.layers = true) ∧
    (∀ (G : Graph α) (m : MLP) (inp : List Nat),
      m.inputLayer = some inp → arityPos inp.length m.layers = true →
      ∃ s : Graph α × List (List Nat),
        MLP.getActivations P G m = .ok s ∧
        s.2.headD [] = inp ∧
        s.2.length = m.layers.length + 1 ∧
        GrowthOk G s.1 ∧
        ∀ row ∈ s.2.drop 1, ∀ o ∈ row, G.size ≤ o ∧ s.1.grad o = 0) := by
  refine ⟨?_, ?_, ?_, ?_, ?_, ?_⟩
  · intro G m h
    unfold MLP.getActivations
    rw [h]
  · intro nin nouts acts rand G0
    rfl
  · intro G m x s hs
    unfold MLP.forward at hs
    by_cases hl : x.length = m.inputSize
    · rw [if_pos hl] at hs
      split at hs
      · have := Except.ok.inj hs
        rw [← this]
      · exact absurd hs (by simp)
    · rw [if_neg hl] at hs
      exact absurd hs (by simp)
  · intro G m inp hinp harity
    obtain ⟨s, hs⟩ := acts_fold_ok_light P m.layers G [inp] inp harity
    have hunf : MLP.getActivations P G m =
        (match m.layers.foldlM
          (fun (s : Graph α × List (List Nat) × List Nat) l =>
            (match NeuronLayer.forward P s.1 l s.2.2 with
             | .ok g => .ok (g.1, s.2.1 ++ [g.2], g.2)
             | .error e => .error e :
             Except Err (Graph α × List (List Nat) × List Nat)))
          (G, [inp], inp) with
        | .ok s => .ok (s.1, s.2.1)
        | .error e => .error e) := by
      unfold MLP.getActivations
      rw [hinp]
    refine ⟨(s.1, s.2.1), ?_⟩
    rw [hunf, hs]
  · intro nin nouts acts rand G0 h1 h2
    exact mkLayers_arityPos rand nouts acts G0 0 nin h1 h2
  · intro G m inp hinp harity
    obtain ⟨s, hs, hg, hlen, δ, hδ, hf⟩ :=
      acts_fold_ok P m.layers G [inp] inp harity
    have hunf : MLP.getActivations P G m =
        (match m.layers.foldlM
          (fun (s : Graph α × List (List Nat) × List Nat) l =>
            (match NeuronLayer.forward P s.1 l s.2.2 with
             | .ok g => .ok (g.1, s.2.1 ++ [g.2], g.2)
             | .error e => .error e :
             Except Err (Graph α × List (List Nat) × List Nat)))
          (G, [inp], inp) with
        | .ok s => .ok (s.1, s.2.1)
        | .error e => .error e) := by
      unfold MLP.getActivations
      rw [hinp]
    refine ⟨(s.1, s.2.1), ?_, ?_, ?_, hg, ?_⟩
    · rw [hunf, hs]
    · rw [hδ]
      simp
    · have h2 : s.2.1.length = 1 + m.layers.length := by simpa using hlen
      show s.2.1.length = m.layers.length + 1
      omega
    · intro row hrow o ho
      rw [hδ] at hrow
      have hrow2 : row ∈ δ := by simpa using hrow
      exact ⟨hf row hrow2 o ho, growth_grad_zero hg (hf row hrow2 o ho)⟩

/-- Witness for C9 (amended): the scenario A network after its forward pass
has the input row stored, satisfies the positivity condition, and its
recomputed rows are fresh zero-gradient nodes. -/
theorem C9_get_activations_recompute_witness :
    (c1M.inputLayer = some [c1In.2] ∧
      arityPos ([c1In.2] : List Nat).length c1M.layers = true) ∧
    ∃ s : Graph ℚ × List (List Nat),
      MLP.getActivations trivPrims c1G2 c1M = .ok s ∧
      s.2.headD [] = [c1In.2] ∧
      s.2.length = c1M.layers.length + 1 ∧
      GrowthOk c1G2 s.1 ∧
      ∀ row ∈ s.2.drop 1, ∀ o ∈ row, c1G2.size ≤ o ∧ s.1.grad o = 0 :=
  ⟨⟨by decide, by decide⟩,
    (C9_get_activations_recompute trivPrims).2.2.2.2.2 c1G2 c1M [c1In.2]
      (by decide) (by decide)⟩

/-- C10: the MLP constructor builds its final layer with `nonlin = false`
(`i !== nouts.length - 1`), so final-layer neurons apply no activation at
all, whatever activation tag was supplied: their output is the raw affine
sum `bias + sum of w_i * x_i`. -/
theorem C10_last_layer_linear (P : Prims α) :
    (∀ (nin : Nat) (nouts : List Nat) (acts : List ActivationType)
      (rand : Nat → α) (G0 : Graph α) (l : NeuronLayer),
      (MLP.init nin nouts acts rand G0).2.layers.getLast? = some l →
      ∀ n ∈ l.neurons, n.nonlin = false) ∧
    (∀ (G : Graph α) (n : Neuron) (x : List Nat), n.nonlin = false →
      x.length = n.w.length → n.b < G.size →
      (∀ w ∈ n.w, w < G.size) → (∀ xi ∈ x, xi < G.size) →
      ∃ s : Graph α × Nat, Neuron.forward P G n x = .ok s ∧
        s.1.data s.2 = G.data n.b + wsum G (n.w.zip x)) := by
  constructor
  · intro nin nouts acts rand G0 l h
    exact mkLayers_last rand nouts acts G0 0 nin l h
  · intro G n x hnl hlen hb hw hx
    obtain ⟨s, hs, hval, _, _, _, _⟩ :=
      neuron_forward_value P G n x hlen hb hw hx
    exact ⟨s, hs, hval hnl⟩

/-- Witness for C10: the scenario A network's only (hence final) layer has
a non-activated neuron, and that neuron's forward on the stored input is
the affine sum. -/
theorem C10_last_layer_linear_witness :
    (c1Net.2.layers.getLast? = some (c1Net.2.layers.headD ⟨[]⟩) ∧
      ∀ n ∈ (c1Net.2.layers.headD ⟨[]⟩).neurons, n.nonlin = false) ∧
    ((c1Net.2.layers.headD ⟨[]⟩).neurons.headD ⟨[], 0, false, .relu⟩).nonlin
        = false ∧
    (([2] : List Nat) : List Nat).length =
      ((c1Net.2.layers.headD ⟨[]⟩).neurons.headD
        ⟨[], 0, false, .relu⟩).w.length ∧
    ∃ s : Graph ℚ × Nat,
      Neuron.forward trivPrims c1In.1
        ((c1Net.2.layers.headD ⟨[]⟩).neurons.headD ⟨[], 0, false, .relu⟩)
        [2] = .ok s ∧
      s.1.data s.2 = c1In.1.data ((c1Net.2.layers.headD ⟨[]⟩).neurons.headD
          ⟨[], 0, false, .relu⟩).b +
        wsum c1In.1 (((c1Net.2.layers.headD ⟨[]⟩).neurons.headD
          ⟨[], 0, false, .relu⟩).w.zip [2]) :=
  ⟨⟨by decide,
    (C10_last_layer_linear trivPrims).1 1 [1] [] (fun _ => (0 : ℚ))
      (Graph.empty ℚ) (c1Net.2.layers.headD ⟨[]⟩) (by decide)⟩,
   by decide, by decide,
   (C10_last_layer_linear trivPrims).2 c1In.1
     ((c1Net.2.layers.headD ⟨[]⟩).neurons.headD ⟨[], 0, false, .relu⟩) [2]
     (by decide) (by decide) (by decide) (by decide) (by decide)⟩

end EasyNN
